import Mathlib

/-!
Verification of the proxybroker2 core against its specification.

The definitions below shallow-embed the Python sources under src/proxybroker:
`proxy.py` (the Proxy statistics, `log`, and the derived properties
`error_rate`, `avg_resp_time`, `schemes`, `priority`), `negotiators.py`
(the SOCKS4/SOCKS5 handshakes), and `server.py` (`ProxyPool.put`,
`ProxyPool.get`, `ProxyPool._import`, `Server._choice_proto`, together with a
faithful model of the CPython `heapq.heappush`/`heapq.heappop` the pool uses).

Machine floats are modelled as rationals.  Python `round(x, 2)` is modelled by
`round2` (round half to even at two decimal places); CPython rounds the
nearest binary double, which agrees with the rational model on all values
appearing in the concrete theorems below (none of them is a half-way case).

`errors.py` and `resolver.py` are not under src/: error classes are modelled
as opaque tags (only the per-kind counters matter to the claims), and
`Resolver.host_is_ip` is modelled from the spec where needed.
-/

namespace ProxyBroker

/-- Python `round(x, 2)` on a rational: round half to even at two decimal
places. -/
def round2 (q : ℚ) : ℚ :=
  ((if 100 * q - ⌊100 * q⌋ < 1/2 then ⌊100 * q⌋
    else if 1/2 < 100 * q - ⌊100 * q⌋ then ⌊100 * q⌋ + 1
    else if Even ⌊100 * q⌋ then ⌊100 * q⌋ else ⌊100 * q⌋ + 1 : ℤ) : ℚ) / 100

theorem round2_eq_down (q : ℚ) (n : ℤ) (h1 : (n : ℚ) ≤ 100 * q)
    (h2 : 100 * q - n < 1/2) : round2 q = (n : ℚ) / 100 := by
  have hf : ⌊100 * q⌋ = n := by
    rw [Int.floor_eq_iff]
    constructor
    · exact h1
    · linarith
  unfold round2
  rw [hf, if_pos (by linarith)]

theorem round2_eq_up (q : ℚ) (n : ℤ) (h1 : (n : ℚ) ≤ 100 * q)
    (h2 : 1/2 < 100 * q - n) (h3 : 100 * q - n < 1) :
    round2 q = ((n + 1 : ℤ) : ℚ) / 100 := by
  have hf : ⌊100 * q⌋ = n := by
    rw [Int.floor_eq_iff]
    constructor
    · exact h1
    · linarith
  unfold round2
  rw [hf, if_neg (by linarith), if_pos (by linarith)]

theorem round2_of_int (q : ℚ) (n : ℤ) (h : 100 * q = (n : ℚ)) :
    round2 q = (n : ℚ) / 100 :=
  round2_eq_down q n (le_of_eq h.symm) (by rw [h]; norm_num)

theorem round2_nonneg (q : ℚ) (hq : 0 ≤ q) : 0 ≤ round2 q := by
  have hy : (0 : ℚ) ≤ 100 * q := by positivity
  have hn : (0 : ℚ) ≤ (⌊100 * q⌋ : ℚ) := by
    exact_mod_cast Int.floor_nonneg.mpr hy
  unfold round2
  apply div_nonneg _ (by norm_num : (0:ℚ) ≤ 100)
  split
  · exact hn
  · split
    · push_cast
      linarith
    · split
      · exact hn
      · push_cast
        linarith

theorem round2_le_one (q : ℚ) (hq : q ≤ 1) : round2 q ≤ 1 := by
  have hy : 100 * q ≤ 100 := by linarith
  have hfl : (⌊100 * q⌋ : ℚ) ≤ 100 * q := Int.floor_le _
  have hn : (⌊100 * q⌋ : ℚ) ≤ 100 := le_trans hfl hy
  unfold round2
  rw [div_le_one (by norm_num)]
  split
  · exact hn
  · rename_i hlt
    have hhalf : 1/2 ≤ 100 * q - ⌊100 * q⌋ := le_of_not_lt hlt
    have h99 : (⌊100 * q⌋ : ℚ) < 100 := by linarith
    have h99i : (⌊100 * q⌋ : ℚ) + 1 ≤ 100 := by
      have : ⌊100 * q⌋ + 1 ≤ (100 : ℤ) := Int.add_one_le_of_lt (by exact_mod_cast h99)
      exact_mod_cast this
    split
    · push_cast
      linarith
    · split
      · exact hn
      · push_cast
        linarith

/-! ### The Proxy statistics model (proxy.py)

A `ProxyM` records the parts of a Proxy's mutable state that the claims are
about: the keys of its `types` dict, the `stat["requests"]` counter, the
increments of the `stat["errors"]` counter (one list entry per increment,
keyed by the error tag), and the `_runtimes` list. -/

/-- `_HTTP_PROTOS` from proxy.py. -/
def httpProtos : List String := ["HTTP", "CONNECT:80", "SOCKS4", "SOCKS5"]

/-- `_HTTPS_PROTOS` from proxy.py. -/
def httpsProtos : List String := ["HTTPS", "SOCKS4", "SOCKS5"]

structure ProxyM where
  types : List String
  requests : Nat
  errmsgs : List String
  runtimes : List ℚ
deriving DecidableEq

instance : Inhabited ProxyM := ⟨⟨[], 0, [], []⟩⟩

/-- `Proxy.error_rate`: 0 when no requests, otherwise
`round(sum(errors.values()) / requests, 2)`. -/
def error_rate (p : ProxyM) : ℚ :=
  if p.requests = 0 then 0 else round2 ((p.errmsgs.length : ℚ) / (p.requests : ℚ))

/-- `Proxy.avg_resp_time`: 0 when no runtimes, otherwise
`round(sum(runtimes) / len(runtimes), 2)`. -/
def avg_resp_time (p : ProxyM) : ℚ :=
  if p.runtimes = [] then 0 else round2 (p.runtimes.sum / (p.runtimes.length : ℚ))

/-- `Proxy.schemes`, derived from the keys of `types`: HTTP when the types
meet `_HTTP_PROTOS`, HTTPS when they meet `_HTTPS_PROTOS`. -/
def schemesOf (types : List String) : List String :=
  (if types.any (fun t => httpProtos.contains t) then ["HTTP"] else []) ++
  (if types.any (fun t => httpsProtos.contains t) then ["HTTPS"] else [])

def ProxyM.schemes (p : ProxyM) : List String := schemesOf p.types

/-- `Proxy.priority` = (error_rate, avg_resp_time). -/
def priority (p : ProxyM) : ℚ × ℚ := (error_rate p, avg_resp_time p)

/-! ### Proxy.log and the operations that feed it -/

/-- Is `pat` a contiguous substring of `s` (Python `pat in s` on strings)? -/
def hasSub (pat : List Char) : List Char → Bool
  | [] => pat.isEmpty
  | c :: rest => pat.isPrefixOf (c :: rest) || hasSub pat rest

/-- Python `"timeout" in msg`. -/
def containsTimeout (msg : String) : Bool := hasSub "timeout".toList msg.toList

/-- The 60-character truncation `Proxy.log` applies to its message before
storing and testing it: `trunc = "..." if len(msg) > 58 else ""` followed by
`msg = f"{msg:.60s}{trunc}"`. -/
def truncMsg (msg : String) : String :=
  String.mk (msg.toList.take 60) ++ (if 58 < msg.toList.length then "..." else "")

/-- `Proxy.log(msg, stime, err)` effect on the statistics: the message is
first truncated by `truncMsg`; the error counter is bumped when `err` is
given; the runtime is appended exactly when it is non-zero (Python
truthiness) and `"timeout"` is not a substring of the truncated message. -/
def plog (p : ProxyM) (msg : String) (runtime : ℚ) (err : Option String) : ProxyM :=
  { p with
    errmsgs := p.errmsgs ++ err.toList
    runtimes :=
      if runtime ≠ 0 ∧ containsTimeout (truncMsg msg) = false then p.runtimes ++ [runtime]
      else p.runtimes }

/-- The operations of proxy.py that touch the statistics, each with its
outcome.  `rt` is the measured elapsed time (`time.time() - stime`).
`rpr` in `recvOk` stands for Python's `str(resp[:12])`, the repr of the first
twelve received bytes that `Proxy.recv` appends to its log message.
The error tags play the role of the `errmsg` attributes of the exception
classes of errors.py (not under src/); only the counts matter here. -/
inductive POp where
  | connectOk (ssl : Bool) (rt : ℚ)
  | connectTimeout (ssl : Bool) (rt : ℚ)
  | connectFail (ssl : Bool) (rt : ℚ)
  | sendOk (req : String)
  | sendFail (req : String)
  | recvOk (rt : ℚ) (n : Nat) (rpr : String)
  | recvTimeout (rt : ℚ)
  | recvFail (rt : ℚ)
  | recvEmpty (rt : ℚ)
  | logCall (msg : String) (rt : ℚ) (err : Option String)
deriving DecidableEq

/-- The `"SSL: "` message piece of `Proxy.connect`. -/
def sslPre (ssl : Bool) : String := if ssl then "SSL: " else ""

/-- State effect of each operation, following proxy.py line by line.
`connect` first logs "Initial connection" without a start time, then bumps
`stat["requests"]` and logs the outcome message with the elapsed time;
`send` logs without a start time (runtime 0); `recv` logs its outcome with
the elapsed time. -/
def applyOp (p : ProxyM) : POp → ProxyM
  | .connectOk ssl rt =>
    let p1 := plog p (sslPre ssl ++ "Initial connection") 0 none
    let p2 := { p1 with requests := p1.requests + 1 }
    plog p2 (sslPre ssl ++ "Connection: success") rt none
  | .connectTimeout ssl rt =>
    let p1 := plog p (sslPre ssl ++ "Initial connection") 0 none
    let p2 := { p1 with requests := p1.requests + 1 }
    plog p2 (sslPre ssl ++ "Connection: timeout") rt (some "connect_timeout")
  | .connectFail ssl rt =>
    let p1 := plog p (sslPre ssl ++ "Initial connection") 0 none
    let p2 := { p1 with requests := p1.requests + 1 }
    plog p2 (sslPre ssl ++ "Connection: failed") rt (some "connect_failed")
  | .sendOk req => plog p ("Request: " ++ req) 0 none
  | .sendFail req => plog p ("Request: " ++ req ++ "; Sending: failed") 0 (some "send_failed")
  | .recvOk rt n rpr => plog p ("Received: " ++ toString n ++ " bytes: " ++ rpr) rt none
  | .recvTimeout rt => plog p "Received: timeout" rt (some "recv_timeout")
  | .recvFail rt => plog p "Received: failed" rt (some "recv_failed")
  | .recvEmpty rt => plog p "Received: 0 bytes" rt (some "empty_recv")
  | .logCall msg rt err => plog p msg rt err

/-- A fresh Proxy's statistics (`Proxy.__init__`). -/
def initProxy : ProxyM := ⟨[], 0, [], []⟩

/-- The runtimes an operation appends to `_runtimes`, per the rule of
`Proxy.log`: non-zero elapsed time and no `"timeout"` substring in the
60-character-truncated logged message. -/
def opRecorded : POp → List ℚ
  | .connectOk _ rt => if rt ≠ 0 then [rt] else []
  | .connectTimeout _ _ => []
  | .connectFail _ rt => if rt ≠ 0 then [rt] else []
  | .sendOk _ => []
  | .sendFail _ => []
  | .recvOk rt n rpr =>
    if rt ≠ 0 ∧ containsTimeout (truncMsg ("Received: " ++ toString n ++ " bytes: " ++ rpr)) = false
    then [rt] else []
  | .recvTimeout _ => []
  | .recvFail rt => if rt ≠ 0 then [rt] else []
  | .recvEmpty rt => if rt ≠ 0 then [rt] else []
  | .logCall msg rt _ =>
    if rt ≠ 0 ∧ containsTimeout (truncMsg msg) = false then [rt] else []

theorem containsTimeout_connSuccess (ssl : Bool) :
    containsTimeout (truncMsg (sslPre ssl ++ "Connection: success")) = false := by
  cases ssl <;> decide

theorem containsTimeout_connFailed (ssl : Bool) :
    containsTimeout (truncMsg (sslPre ssl ++ "Connection: failed")) = false := by
  cases ssl <;> decide

theorem containsTimeout_connTimeout (ssl : Bool) :
    containsTimeout (truncMsg (sslPre ssl ++ "Connection: timeout")) = true := by
  cases ssl <;> decide

theorem applyOp_runtimes (p : ProxyM) (op : POp) :
    (applyOp p op).runtimes = p.runtimes ++ opRecorded op := by
  cases op with
  | connectOk ssl rt =>
    simp only [applyOp, opRecorded, plog, containsTimeout_connSuccess ssl]
    by_cases h : rt = 0 <;> simp [h]
  | connectTimeout ssl rt =>
    simp [applyOp, opRecorded, plog, containsTimeout_connTimeout ssl]
  | connectFail ssl rt =>
    simp only [applyOp, opRecorded, plog, containsTimeout_connFailed ssl]
    by_cases h : rt = 0 <;> simp [h]
  | sendOk req => simp [applyOp, opRecorded, plog]
  | sendFail req => simp [applyOp, opRecorded, plog]
  | recvOk rt n rpr =>
    simp only [applyOp, opRecorded, plog]
    by_cases h : rt ≠ 0 ∧ containsTimeout (truncMsg ("Received: " ++ toString n ++ " bytes: " ++ rpr)) = false <;>
      simp [h]
  | recvTimeout rt =>
    simp [applyOp, opRecorded, plog,
      show containsTimeout (truncMsg "Received: timeout") = true by decide]
  | recvFail rt =>
    simp only [applyOp, opRecorded, plog,
      show containsTimeout (truncMsg "Received: failed") = false by decide]
    by_cases h : rt = 0 <;> simp [h]
  | recvEmpty rt =>
    simp only [applyOp, opRecorded, plog,
      show containsTimeout (truncMsg "Received: 0 bytes") = false by decide]
    by_cases h : rt = 0 <;> simp [h]
  | logCall msg rt err =>
    simp only [applyOp, opRecorded, plog]
    by_cases h : rt ≠ 0 ∧ containsTimeout (truncMsg msg) = false <;> simp [h]

theorem foldl_applyOp_runtimes (ops : List POp) :
    ∀ p : ProxyM, (ops.foldl applyOp p).runtimes = p.runtimes ++ ops.flatMap opRecorded := by
  induction ops with
  | nil => intro p; simp
  | cons op rest ih =>
    intro p
    simp only [List.foldl_cons, List.flatMap_cons, ih (applyOp p op), applyOp_runtimes,
      List.append_assoc]

theorem error_rate_nonneg (p : ProxyM) : 0 ≤ error_rate p := by
  unfold error_rate
  split
  · exact le_refl 0
  · exact round2_nonneg _ (by positivity)

theorem error_rate_le_one (p : ProxyM) (h : p.errmsgs.length ≤ p.requests) :
    error_rate p ≤ 1 := by
  unfold error_rate
  split
  · norm_num
  · rename_i hr
    apply round2_le_one
    rw [div_le_one (by exact_mod_cast Nat.pos_of_ne_zero hr)]
    exact_mod_cast h

/-- C9 (amended): after any sequence of proxy operations, `error_rate` equals
the total error count divided by the request counter rounded to two decimals
(0 when no requests); it is always non-negative, and it is at most 1 whenever
the error count does not exceed the request count.  (Operation sequences that
log errors without a connect — send/receive failures — can push it above 1,
and the rounding makes it differ from the exact ratio.) -/
theorem c9_error_rate (ops : List POp) :
    0 ≤ error_rate (ops.foldl applyOp initProxy)
    ∧ ((ops.foldl applyOp initProxy).errmsgs.length ≤ (ops.foldl applyOp initProxy).requests →
        error_rate (ops.foldl applyOp initProxy) ≤ 1)
    ∧ error_rate (ops.foldl applyOp initProxy) =
        (if (ops.foldl applyOp initProxy).requests = 0 then 0
         else round2 (((ops.foldl applyOp initProxy).errmsgs.length : ℚ) /
           ((ops.foldl applyOp initProxy).requests : ℚ))) :=
  ⟨error_rate_nonneg _, error_rate_le_one _, rfl⟩

/-- Witness for C9's amended theorem at a concrete operation sequence. -/
theorem c9_error_rate_witness :
    error_rate ([POp.connectOk false 1].foldl applyOp initProxy) ≤ 1 :=
  (c9_error_rate [POp.connectOk false 1]).2.1 (by decide)

/-- Three successful connects followed by a failed send: each connect opens a
fresh connection (so send's `self.writer.write` is reachable) and the reset
send logs `ProxySendError` without touching the request counter. -/
def c9opsA : List POp :=
  [POp.connectOk false 1, POp.connectOk false 1, POp.connectOk false 1,
   POp.sendFail "GET / HTTP/1.1"]

/-- One successful connect, then a reset send and a failed receive on the
open connection: requests stays at 1 while two errors are logged. -/
def c9opsB : List POp :=
  [POp.connectOk false 1, POp.sendFail "GET / HTTP/1.1", POp.recvFail 1]

/-- C9 (counterexample): after three successful connects and one reset send,
requests = 3 and errors = 1, so `error_rate = round(1/3, 2) = 0.33 ≠ 1/3` —
not the exact quotient; and after one successful connect, a reset send and a
failed receive, requests = 1 and errors = 2, so `error_rate = 2.0 > 1` — the
claimed invariant `error_rate ∈ [0, 1]` fails on the code.  Both sequences
trace through proxy.py: connect succeeds, so `self.writer`/`self.reader`
exist and the send/receive failures raise `ConnectionResetError`, which
`send`/`recv` log as `ProxySendError`/`ProxyRecvError` without a request
increment. -/
theorem c9_counterexample :
    (c9opsA.foldl applyOp initProxy).requests = 3
    ∧ (c9opsA.foldl applyOp initProxy).errmsgs.length = 1
    ∧ error_rate (c9opsA.foldl applyOp initProxy) = 33/100
    ∧ error_rate (c9opsA.foldl applyOp initProxy) ≠ 1/3
    ∧ (c9opsB.foldl applyOp initProxy).requests = 1
    ∧ (c9opsB.foldl applyOp initProxy).errmsgs.length = 2
    ∧ error_rate (c9opsB.foldl applyOp initProxy) = 2
    ∧ ¬ error_rate (c9opsB.foldl applyOp initProxy) ≤ 1 := by
  have hreqA : (c9opsA.foldl applyOp initProxy).requests = 3 := by decide
  have herrA : (c9opsA.foldl applyOp initProxy).errmsgs.length = 1 := by decide
  have hreqB : (c9opsB.foldl applyOp initProxy).requests = 1 := by decide
  have herrB : (c9opsB.foldl applyOp initProxy).errmsgs.length = 2 := by decide
  have hrateA : error_rate (c9opsA.foldl applyOp initProxy) = 33/100 := by
    unfold error_rate
    rw [if_neg (by rw [hreqA]; norm_num), hreqA, herrA]
    rw [round2_eq_down _ 33 (by norm_num) (by norm_num)]
    norm_num
  have hrateB : error_rate (c9opsB.foldl applyOp initProxy) = 2 := by
    unfold error_rate
    rw [if_neg (by rw [hreqB]; norm_num), hreqB, herrB]
    rw [round2_of_int _ 200 (by norm_num)]
    norm_num
  refine ⟨hreqA, herrA, hrateA, ?_, hreqB, herrB, hrateB, ?_⟩
  · rw [hrateA]; norm_num
  · rw [hrateB]; norm_num

/-- C8 (amended): `avg_resp_time` is the arithmetic mean of the recorded
runtimes rounded to two decimals (0 when the list is empty); a runtime is
recorded by a `Proxy.log` call exactly when it is non-zero and the
60-character-truncated message the call stores does not contain the substring
`"timeout"` (the rule `opRecorded`).  Timed-out connects and receives log
short messages that survive truncation and so never contribute — but a
successful receive whose first echoed bytes spell `"timeout"` is also
skipped, and a long message whose `"timeout"` lies past the 60-character cut
does record its runtime. -/
theorem c8_avg_resp_time (ops : List POp) :
    avg_resp_time (ops.foldl applyOp initProxy) =
      (if (ops.foldl applyOp initProxy).runtimes = [] then 0
       else round2 ((ops.foldl applyOp initProxy).runtimes.sum /
         (((ops.foldl applyOp initProxy).runtimes.length : ℚ))))
    ∧ (ops.foldl applyOp initProxy).runtimes = ops.flatMap opRecorded
    ∧ (∀ ssl rt, opRecorded (POp.connectTimeout ssl rt) = [])
    ∧ (∀ rt, opRecorded (POp.recvTimeout rt) = []) := by
  refine ⟨rfl, ?_, fun _ _ => rfl, fun _ => rfl⟩
  simpa using foldl_applyOp_runtimes ops initProxy

/-- A 62-character request line, as server.py:444 logs via
`proxy.log(request.decode(), stime, err=err)`, whose only occurrence of
`"timeout"` starts at index 55 and so straddles the 60-character cut. -/
def longReqMsg : String :=
  "GET http://example.com/aaaaaaaaaaaaaaaaaaaaaaaaaaaaaaa/timeout"

/-- C8 (counterexample): a single successful connect with elapsed time 5/3 s
yields `avg_resp_time = round(5/3, 2) = 1.67 ≠ 5/3`, so `avg_resp_time` is
not the exact arithmetic mean; a 62-character logged request whose
`"timeout"` crosses the 60-character cut records its runtime even though the
full message contains `"timeout"`; and a successful (non-timed-out) receive
whose echoed bytes contain `"timeout"` records nothing — so "recorded exactly
when the operation did not time out" fails in both directions. -/
theorem c8_counterexample :
    (applyOp initProxy (POp.connectOk false (5/3))).runtimes = [5/3]
    ∧ avg_resp_time (applyOp initProxy (POp.connectOk false (5/3))) = 167/100
    ∧ avg_resp_time (applyOp initProxy (POp.connectOk false (5/3))) ≠
        (applyOp initProxy (POp.connectOk false (5/3))).runtimes.sum /
          (((applyOp initProxy (POp.connectOk false (5/3))).runtimes.length : ℚ))
    ∧ containsTimeout longReqMsg = true
    ∧ (applyOp initProxy (POp.logCall longReqMsg 1 none)).runtimes = [1]
    ∧ ([POp.connectOk false 1, POp.recvOk 1 20 "b'timeout 12'"].foldl applyOp
        initProxy).runtimes = [1] := by
  have h1 : (applyOp initProxy (POp.connectOk false (5/3))).runtimes = [5/3] := by
    rw [applyOp_runtimes]
    simp only [initProxy, opRecorded, List.nil_append]
    rw [if_pos (by norm_num)]
  have h2 : avg_resp_time (applyOp initProxy (POp.connectOk false (5/3))) = 167/100 := by
    unfold avg_resp_time
    rw [h1]
    rw [if_neg (by simp)]
    simp only [List.sum_cons, List.sum_nil, List.length_cons, List.length_nil]
    norm_num
    rw [round2_eq_up _ 166 (by norm_num) (by norm_num) (by norm_num)]
    norm_num
  refine ⟨h1, h2, ?_, by decide, ?_, ?_⟩
  · rw [h2, h1]
    norm_num
  · rw [applyOp_runtimes]
    simp only [initProxy, opRecorded, List.nil_append]
    rw [if_pos ⟨by norm_num, by decide⟩]
  · rw [foldl_applyOp_runtimes]
    simp only [initProxy, List.flatMap_cons, List.flatMap_nil, List.nil_append]
    rw [show opRecorded (POp.connectOk false 1) = [1] by
        simp only [opRecorded]
        rw [if_pos (by norm_num)]]
    rw [show opRecorded (POp.recvOk 1 20 "b'timeout 12'") = [] by
        simp only [opRecorded]
        rw [if_neg (fun hcon => absurd hcon.2 (by decide))]]
    simp

/-! ### Negotiators (negotiators.py) and Proxy._recv (proxy.py)

Replies are byte lists.  Indexing `resp[i]` on a Python bytes object raises
`IndexError` when `i` is out of range; the outcomes below record which
exception (if any) the handshake code raises, following the source's
evaluation order including `and`/`or` short-circuiting. -/

inductive NegOutcome where
  | ok
  | badResponse
  | indexError
  | emptyRecv
deriving DecidableEq

/-- `Proxy._recv(length)`: `readexactly(length)` returns the first `length`
bytes of the stream, or — on `IncompleteReadError`, when the stream ends
early — the partial data. -/
def recvExact (stream : List Nat) (length : Nat) : List Nat := stream.take length

/-- The check of the first SOCKS5 reply (`Socks5Ngtr.negotiate`):
`if resp[0] == 0x05 and resp[1] == 0xFF: raise BadResponseError`
`elif resp[0] != 0x05 or resp[1] != 0x00: raise BadResponseError`,
with Python's left-to-right evaluation and short-circuiting. -/
def socks5Greet (resp : List Nat) : NegOutcome :=
  match resp[0]? with
  | none => .indexError
  | some b0 =>
    if b0 = 5 then
      match resp[1]? with
      | none => .indexError
      | some b1 =>
        if b1 = 255 then .badResponse
        else if b1 ≠ 0 then .badResponse
        else .ok
    else .badResponse

/-- The check of the second SOCKS5 reply:
`if resp[0] != 0x05 or resp[1] != 0x00: raise BadResponseError`. -/
def socks5ConnCheck (resp : List Nat) : NegOutcome :=
  match resp[0]? with
  | none => .indexError
  | some b0 =>
    if b0 ≠ 5 then .badResponse
    else
      match resp[1]? with
      | none => .indexError
      | some b1 => if b1 ≠ 0 then .badResponse else .ok

/-- The reply check of `Socks4Ngtr.negotiate`:
`if resp[0] != 0x00 or resp[1] != 0x5A: raise BadResponseError`. -/
def socks4Check (resp : List Nat) : NegOutcome :=
  match resp[0]? with
  | none => .indexError
  | some b0 =>
    if b0 ≠ 0 then .badResponse
    else
      match resp[1]? with
      | none => .indexError
      | some b1 => if b1 ≠ 90 then .badResponse else .ok

/-- `struct.pack(">H", port)`: the port as two big-endian bytes. -/
def portBytes (port : Nat) : List Nat := [port / 256, port % 256]

structure Socks5Run where
  sent : List (List Nat)
  outcome : NegOutcome
deriving DecidableEq

/-- `Socks5Ngtr.negotiate`: send `05 01 00`; check the 2-byte reply; then send
`05 01 00 01` + 4-byte IP + 2-byte big-endian port and check the (up to)
10-byte reply.  `resp1`/`resp2` are the byte strings the two `recv` calls
returned; an empty receive raises `ProxyEmptyRecvError` inside `Proxy.recv`
before the negotiator's checks run. -/
def socks5Negotiate (ip : List Nat) (port : Nat) (resp1 resp2 : List Nat) : Socks5Run :=
  let greeting : List Nat := [5, 1, 0]
  if resp1 = [] then ⟨[greeting], .emptyRecv⟩
  else
    match socks5Greet resp1 with
    | .ok =>
      let req : List Nat := [5, 1, 0, 1] ++ ip ++ portBytes port
      if resp2 = [] then ⟨[greeting, req], .emptyRecv⟩
      else ⟨[greeting, req], socks5ConnCheck resp2⟩
    | out => ⟨[greeting], out⟩

/-- C6: the SOCKS5 negotiation sends the greeting `05 01 00`, then the connect
request `05 01 00 01` + 4-byte IP + 2-byte big-endian port; given replies of
the expected length (at least 2 bytes each) it completes without error iff
both replies begin with the two bytes `05 00`, and in every other case —
in particular an auth-required first reply beginning `05 FF` — it raises
`BadResponseError`. -/
theorem c6_socks5_negotiation (ip : List Nat) (port : Nat) (resp1 resp2 : List Nat)
    (h1 : 2 ≤ resp1.length) (h2 : 2 ≤ resp2.length) :
    (socks5Negotiate ip port resp1 resp2).sent.head? = some [5, 1, 0]
    ∧ ((socks5Negotiate ip port resp1 resp2).outcome = NegOutcome.ok ↔
        resp1.take 2 = [5, 0] ∧ resp2.take 2 = [5, 0])
    ∧ ((socks5Negotiate ip port resp1 resp2).outcome = NegOutcome.ok →
        (socks5Negotiate ip port resp1 resp2).sent =
          [[5, 1, 0], [5, 1, 0, 1] ++ ip ++ [port / 256, port % 256]])
    ∧ ((socks5Negotiate ip port resp1 resp2).outcome ≠ NegOutcome.ok →
        (socks5Negotiate ip port resp1 resp2).outcome = NegOutcome.badResponse)
    ∧ (resp1.take 2 = [5, 255] →
        (socks5Negotiate ip port resp1 resp2).outcome = NegOutcome.badResponse) := by
  match resp1, h1 with
  | a :: b :: t1, _ =>
  match resp2, h2 with
  | c :: d :: t2, _ =>
  simp only [socks5Negotiate, socks5Greet, socks5ConnCheck, portBytes]
  by_cases ha : a = 5
  · subst ha
    by_cases hb255 : b = 255
    · subst hb255
      simp [List.take]
    · by_cases hb : b = 0
      · subst hb
        by_cases hc : c = 5
        · subst hc
          by_cases hd : d = 0
          · subst hd
            simp [List.take]
          · simp [List.take, hb255, hd]
        · simp [List.take, hb255, hc]
      · simp [List.take, hb255, hb]
  · simp [List.take, ha]

/-- Witness for C6 at a concrete successful handshake. -/
theorem c6_socks5_negotiation_witness :
    (socks5Negotiate [127, 0, 0, 1] 443 [5, 0] [5, 0, 0, 1, 127, 0, 0, 1, 1, 187]).outcome =
      NegOutcome.ok
    ∧ (socks5Negotiate [127, 0, 0, 1] 443 [5, 0] [5, 0, 0, 1, 127, 0, 0, 1, 1, 187]).sent =
      [[5, 1, 0], [5, 1, 0, 1, 127, 0, 0, 1, 1, 187]] := by
  have h := c6_socks5_negotiation [127, 0, 0, 1] 443 [5, 0] [5, 0, 0, 1, 127, 0, 0, 1, 1, 187]
    (by decide) (by decide)
  have hok := h.2.1.mpr (by decide)
  exact ⟨hok, by simpa using h.2.2.1 hok⟩

/-- C10: `Proxy.recv(length)` may return non-empty data shorter than
requested (a partial read), and the SOCKS negotiators index bytes 0 and 1 of
the reply without a length guard, so a 1-byte reply makes the failure branch
raise `IndexError` instead of the documented `BadResponseError`: seen on the
SOCKS5 greeting reply `05` and the SOCKS4 reply `00`. -/
theorem c10_short_reply_index_error :
    (recvExact [5] 2 ≠ [] ∧ (recvExact [5] 2).length < 2)
    ∧ socks5Greet (recvExact [5] 2) = NegOutcome.indexError
    ∧ socks4Check (recvExact [0] 8) = NegOutcome.indexError
    ∧ socks5Greet (recvExact [5] 2) ≠ NegOutcome.badResponse
    ∧ socks4Check (recvExact [0] 8) ≠ NegOutcome.badResponse
    ∧ (socks5Negotiate [127, 0, 0, 1] 80 (recvExact [5] 2) []).outcome =
        NegOutcome.indexError := by
  decide

/-! ### Server._choice_proto (server.py) -/

/-- The `for proto in [...]` loops of `Server._choice_proto`: the first
protocol of the priority order present in the proxy's types. -/
def firstSupported : List String → List String → Option String
  | [], _ => none
  | proto :: rest, types =>
    if types.contains proto then some proto else firstSupported rest types

def httpOrder : List String := ["HTTP", "CONNECT:80", "SOCKS5", "SOCKS4"]

def httpsOrder : List String := ["HTTPS", "SOCKS5", "SOCKS4"]

/-- `Server._choice_proto(proxy, scheme)`; `none` models the `RuntimeError`
raised when no suitable protocol is found. -/
def choiceProto (preferConnect : Bool) (types : List String) (scheme : String) : Option String :=
  if scheme = "HTTP" then
    if preferConnect = true ∧ types.contains "CONNECT:80" = true then some "CONNECT:80"
    else firstSupported httpOrder types
  else firstSupported httpsOrder types

theorem firstSupported_mem (order types : List String) (proto : String)
    (h : firstSupported order types = some proto) :
    proto ∈ order ∧ types.contains proto = true := by
  induction order with
  | nil => simp [firstSupported] at h
  | cons q rest ih =>
    rw [firstSupported] at h
    by_cases hq : types.contains q = true
    · rw [if_pos hq] at h
      cases h
      exact ⟨List.mem_cons_self _ _, hq⟩
    · rw [if_neg hq] at h
      have := ih h
      exact ⟨List.mem_cons_of_mem q this.1, this.2⟩

theorem firstSupported_first (order types : List String) (proto : String)
    (h : firstSupported order types = some proto) :
    ∀ q ∈ order.takeWhile (fun x => x ≠ proto), types.contains q = false := by
  induction order with
  | nil => simp [firstSupported] at h
  | cons r rest ih =>
    rw [firstSupported] at h
    by_cases hr : types.contains r = true
    · rw [if_pos hr] at h
      cases h
      simp [List.takeWhile]
    · rw [if_neg hr] at h
      intro q hq
      rw [List.takeWhile] at hq
      by_cases hrp : r = proto
      · subst hrp
        simp at hq
      · simp only [hrp, decide_not, decide_eq_true_eq] at hq
        rcases List.mem_cons.mp (by simpa using hq) with rfl | hq2
        · simpa using hr
        · exact ih h q (by simpa using hq2)

theorem firstSupported_isSome (order types : List String)
    (h : ∃ p ∈ order, types.contains p = true) :
    (firstSupported order types).isSome = true := by
  induction order with
  | nil => simp at h
  | cons q rest ih =>
    rw [firstSupported]
    by_cases hq : types.contains q = true
    · rw [if_pos hq]; rfl
    · rw [if_neg hq]
      apply ih
      rcases h with ⟨p, hp, hpt⟩
      rcases List.mem_cons.mp hp with rfl | hp2
      · exact absurd hpt hq
      · exact ⟨p, hp2, hpt⟩

theorem schemes_http_overlap (types : List String) (h : "HTTP" ∈ schemesOf types) :
    ∃ p ∈ httpOrder, types.contains p = true := by
  unfold schemesOf at h
  by_cases hh : types.any (fun t => httpProtos.contains t) = true
  · rcases List.any_eq_true.mp hh with ⟨t, ht, htp⟩
    refine ⟨t, ?_, by simpa using ht⟩
    have : t ∈ httpProtos := by simpa using htp
    fin_cases this <;> simp [httpOrder]
  · exfalso
    rw [if_neg hh] at h
    by_cases hs : types.any (fun t => httpsProtos.contains t) = true <;>
      simp [hs] at h

theorem schemes_https_overlap (types : List String) (h : "HTTPS" ∈ schemesOf types) :
    ∃ p ∈ httpsOrder, types.contains p = true := by
  unfold schemesOf at h
  by_cases hs : types.any (fun t => httpsProtos.contains t) = true
  · rcases List.any_eq_true.mp hs with ⟨t, ht, htp⟩
    refine ⟨t, ?_, by simpa using ht⟩
    have : t ∈ httpsProtos := by simpa using htp
    fin_cases this <;> simp [httpsOrder]
  · exfalso
    rw [if_neg hs] at h
    by_cases hh : types.any (fun t => httpProtos.contains t) = true <;>
      simp [hh] at h

/-- C5: the server's protocol choice is the deterministic function of the
claim: for HTTP, `CONNECT:80` when `prefer_connect` is set and supported,
otherwise the first of `[HTTP, CONNECT:80, SOCKS5, SOCKS4]` in the proxy's
types; for HTTPS the first of `[HTTPS, SOCKS5, SOCKS4]`; `firstSupported`
really picks the first present element of the order; and for a proxy with at
least one compatible protocol the choice succeeds. -/
theorem c5_choice_proto (preferConnect : Bool) (types : List String) :
    (preferConnect = true → types.contains "CONNECT:80" = true →
      choiceProto preferConnect types "HTTP" = some "CONNECT:80")
    ∧ (¬ (preferConnect = true ∧ types.contains "CONNECT:80" = true) →
      choiceProto preferConnect types "HTTP" = firstSupported httpOrder types)
    ∧ choiceProto preferConnect types "HTTPS" = firstSupported httpsOrder types
    ∧ ("HTTP" ∈ schemesOf types → (choiceProto preferConnect types "HTTP").isSome = true)
    ∧ ("HTTPS" ∈ schemesOf types → (choiceProto preferConnect types "HTTPS").isSome = true)
    ∧ (∀ order proto, firstSupported order types = some proto →
        proto ∈ order ∧ types.contains proto = true ∧
          ∀ q ∈ order.takeWhile (fun x => x ≠ proto), types.contains q = false) := by
  refine ⟨?_, ?_, ?_, ?_, ?_, ?_⟩
  · intro hp hc
    unfold choiceProto
    rw [if_pos rfl, if_pos ⟨hp, hc⟩]
  · intro hnot
    unfold choiceProto
    rw [if_pos rfl, if_neg hnot]
  · unfold choiceProto
    rw [if_neg (by decide)]
  · intro hmem
    unfold choiceProto
    rw [if_pos rfl]
    by_cases hpc : preferConnect = true ∧ types.contains "CONNECT:80" = true
    · rw [if_pos hpc]; rfl
    · rw [if_neg hpc]
      exact firstSupported_isSome _ _ (schemes_http_overlap types hmem)
  · intro hmem
    unfold choiceProto
    rw [if_neg (by decide)]
    exact firstSupported_isSome _ _ (schemes_https_overlap types hmem)
  · intro order proto h
    have h1 := firstSupported_mem order types proto h
    exact ⟨h1.1, h1.2, firstSupported_first order types proto h⟩

/-- Witness for C5 at the spec's own example: types {HTTP, SOCKS5, SOCKS4}
with `prefer_connect` off picks HTTP; with `prefer_connect` on and CONNECT:80
added it picks CONNECT:80; for HTTPS on the first proxy it picks SOCKS5. -/
theorem c5_choice_proto_witness :
    choiceProto false ["HTTP", "SOCKS5", "SOCKS4"] "HTTP" = some "HTTP"
    ∧ choiceProto true ["HTTP", "SOCKS5", "SOCKS4", "CONNECT:80"] "HTTP" = some "CONNECT:80"
    ∧ choiceProto false ["HTTP", "SOCKS5", "SOCKS4"] "HTTPS" = some "SOCKS5" := by
  refine ⟨?_, ?_, ?_⟩
  · exact ((c5_choice_proto false ["HTTP", "SOCKS5", "SOCKS4"]).2.1 (by simp)).trans (by decide)
  · exact (c5_choice_proto true ["HTTP", "SOCKS5", "SOCKS4", "CONNECT:80"]).1 rfl (by decide)
  · exact ((c5_choice_proto false ["HTTP", "SOCKS5", "SOCKS4"]).2.2.1).trans (by decide)

/-! ### CPython heapq, as used by ProxyPool (server.py)

The pool stores `(priority, proxy)` pairs where the pushed priority is
`proxy.avg_resp_time` (server.py:127).  CPython compares such pairs with
`tuple.__lt__`: unequal priorities are decided by the priorities alone; on a
priority tie the comparison falls through to the `Proxy` objects — equal
objects make the tuples compare as not-less, and distinct objects raise
`TypeError`, because `Proxy` defines no ordering.  The exception escapes the
`heapq` call, leaving the list in its partially mutated state. -/

abbrev Entry := ℚ × ProxyM

/-- CPython `(k1, p1) < (k2, p2)` on heap entries: `some b` when the
comparison returns `b`, `none` when it raises `TypeError` (equal keys,
distinct proxies).  Structural equality of `ProxyM` stands in for the object
identity CPython's default `==` uses on `Proxy`. -/
def entLt (a b : Entry) : Option Bool :=
  if a.1 = b.1 then
    (if a.2 = b.2 then some false else none)
  else if a.1 < b.1 then some true else some false

theorem entLt_true_lt (a b : Entry) (h : entLt a b = some true) : a.1 < b.1 := by
  by_cases h1 : a.1 = b.1
  · by_cases h2 : a.2 = b.2 <;> simp [entLt, h1, h2] at h
  · by_cases h3 : a.1 < b.1
    · exact h3
    · simp [entLt, h1, h3] at h

theorem entLt_false_le (a b : Entry) (h : entLt a b = some false) : b.1 ≤ a.1 := by
  by_cases h1 : a.1 = b.1
  · exact le_of_eq h1.symm
  · by_cases h3 : a.1 < b.1
    · simp [entLt, h1, h3] at h
    · exact le_of_not_lt h3

/-- The result of a heap mutation: the final list on success, or the list as
the raising `TypeError` left it. -/
inductive HRes where
  | ok (h : List Entry)
  | typeError (h : List Entry)
deriving DecidableEq

def HRes.heap : HRes → List Entry
  | .ok h => h
  | .typeError h => h

/-- `heapq._siftdown(heap, 0, pos)` with the moved item passed explicitly:
walk `pos` towards the root while `newitem < parent`, shifting parents down,
and place the item at the final position.  A `TypeError` in the comparison
leaves the shifts made so far, with the item not yet written back. -/
def siftdown (h : List Entry) (pos : Nat) (item : Entry) : HRes :=
  if 0 < pos then
    match h[(pos - 1) / 2]? with
    | some parent =>
      match entLt item parent with
      | some true => siftdown (h.set pos parent) ((pos - 1) / 2) item
      | some false => .ok (h.set pos item)
      | none => .typeError h
    | none => .ok (h.set pos item)
  else .ok (h.set pos item)
termination_by pos
decreasing_by omega

/-- The child comparison of `heapq._siftup` raises `TypeError`
(`not heap[childpos] < heap[rightpos]` on tied keys of distinct proxies). -/
def childTie (h : List Entry) (pos : Nat) : Bool :=
  match h[2 * pos + 1]?, h[2 * pos + 2]? with
  | some l, some r => (entLt l r).isNone
  | _, _ => false

/-- The child-selection step of `heapq._siftup`: the right child is chosen
unless the left child is strictly smaller (meaningful only when the
comparison does not raise, i.e. `childTie` is false). -/
def smallerChild (h : List Entry) (pos : Nat) : Nat :=
  match h[2 * pos + 1]?, h[2 * pos + 2]? with
  | some l, some r => if entLt l r = some true then 2 * pos + 1 else 2 * pos + 2
  | _, _ => 2 * pos + 1

theorem smallerChild_childOf (h : List Entry) (pos : Nat) :
    smallerChild h pos = 2 * pos + 1 ∨ smallerChild h pos = 2 * pos + 2 := by
  rcases h1 : h[2 * pos + 1]? with _ | l
  · left
    simp [smallerChild, h1]
  · rcases h2 : h[2 * pos + 2]? with _ | r
    · left
      simp [smallerChild, h1, h2]
    · by_cases hlr : entLt l r = some true
      · left
        simp [smallerChild, h1, h2, hlr]
      · right
        simp [smallerChild, h1, h2, hlr]

theorem smallerChild_gt (h : List Entry) (pos : Nat) : pos < smallerChild h pos := by
  rcases smallerChild_childOf h pos with h1 | h1 <;> omega

/-- `heapq._siftup(heap, pos)` (with `startpos = pos = 0` in heappop's use,
but stated generally): walk the hole down along smaller children to a leaf,
write the item at the leaf, then sift it back up.  A `TypeError` in the child
comparison leaves the duplicating shifts made so far. -/
def siftup (h : List Entry) (pos : Nat) (item : Entry) : HRes :=
  if 2 * pos + 1 < h.length then
    if childTie h pos then .typeError h
    else
      match h[smallerChild h pos]? with
      | some c => siftup (h.set pos c) (smallerChild h pos) item
      | none => .ok (h.set pos item)
  else siftdown (h.set pos item) pos item
termination_by h.length - pos
decreasing_by
  simp only [List.length_set]
  have := smallerChild_gt h pos
  omega

/-- `heapq.heappush`: append, then sift the appended item down towards the
root. -/
def heappush (h : List Entry) (item : Entry) : HRes :=
  siftdown (h ++ [item]) h.length item

/-- The result of `heapq.heappop`: `empty` models the `IndexError` on an
empty list (never reached by `ProxyPool.get`, which checks `while self._pool`
first); on a `TypeError` the read root entry is lost and the list keeps its
partial state. -/
inductive PopRes where
  | empty
  | ok (e : Entry) (rest : List Entry)
  | typeError (rest : List Entry)
deriving DecidableEq

/-- `heapq.heappop`: pop the last element, overwrite the root with it, and
sift up; the read-out root is returned only if the sift succeeds. -/
def heappop (h : List Entry) : PopRes :=
  match h.getLast? with
  | none => .empty
  | some last =>
    match (h.dropLast)[0]? with
    | none => .ok last []
    | some top =>
      match siftup (h.dropLast.set 0 last) 0 last with
      | .ok h2 => .ok top h2
      | .typeError h2 => .typeError h2

theorem set_append_length (h : List Entry) (e a : Entry) :
    (h ++ [e]).set h.length a = h ++ [a] := by
  induction h with
  | nil => rfl
  | cons x xs ih =>
    show x :: ((xs ++ [e]).set xs.length a) = x :: (xs ++ [a])
    rw [ih]

theorem heappush_nil (e : Entry) : heappush [] e = .ok [e] := by
  unfold heappush
  rw [siftdown]
  simp

/-- A push whose item does not compare below (and does not tie) its parent
appends without further movement. -/
theorem heappush_ge_parent (h : List Entry) (e parent : Entry)
    (hp : h[(h.length - 1) / 2]? = some parent)
    (h1 : ¬ e.1 = parent.1) (h2 : ¬ e.1 < parent.1) :
    heappush h e = .ok (h ++ [e]) := by
  have hplen := (List.getElem?_eq_some.mp hp).1
  have hlen : 0 < h.length := by omega
  have hE : entLt e parent = some false := by
    unfold entLt
    rw [if_neg h1, if_neg h2]
  unfold heappush
  rw [siftdown, if_pos hlen]
  have hap : (h ++ [e])[(h.length - 1) / 2]? = some parent := by
    rw [List.getElem?_append_left hplen]
    exact hp
  simp only [hap, hE]
  rw [set_append_length]

/-! ### The heap invariant, on the stored keys -/

/-- `j` is a child index of `i` in the implicit binary tree of heapq. -/
def ChildOf (j i : Nat) : Prop := j = 2 * i + 1 ∨ j = 2 * i + 2

theorem ChildOf.gt {j i : Nat} (h : ChildOf j i) : i < j := by
  rcases h with rfl | rfl <;> omega

theorem ChildOf.parent_eq {j i : Nat} (h : ChildOf j i) : (j - 1) / 2 = i := by
  rcases h with rfl | rfl <;> omega

theorem childOf_parent {j : Nat} (h : 0 < j) : ChildOf j ((j - 1) / 2) := by
  unfold ChildOf
  omega

def keyAt (h : List Entry) (i : Nat) : Option ℚ := (h[i]?).map Prod.fst

theorem keyAt_eq (h : List Entry) (i : Nat) (e : Entry) (hp : h[i]? = some e) :
    keyAt h i = some e.1 := by
  unfold keyAt
  rw [hp]
  rfl

theorem keyAt_set_ne (h : List Entry) (i j : Nat) (a : Entry) (hne : i ≠ j) :
    keyAt (h.set i a) j = keyAt h j := by
  unfold keyAt
  rw [List.getElem?_set_ne hne]

theorem keyAt_set_self (h : List Entry) (i : Nat) (a : Entry) (hi : i < h.length) :
    keyAt (h.set i a) i = some a.1 := by
  unfold keyAt
  rw [List.getElem?_set_self hi]
  rfl

theorem keyAt_isSome (h : List Entry) (i : Nat) (x : ℚ) (hx : keyAt h i = some x) :
    i < h.length := by
  unfold keyAt at hx
  rcases he : h[i]? with _ | e
  · rw [he] at hx
    cases hx
  · exact (List.getElem?_eq_some.mp he).1

def KeyLe (h : List Entry) (i j : Nat) : Prop :=
  ∀ x y, keyAt h i = some x → keyAt h j = some y → x ≤ y

def IsHeap (h : List Entry) : Prop := ∀ i j, ChildOf j i → KeyLe h i j

def PairsOkExcept (h : List Entry) (pos : Nat) : Prop :=
  ∀ i j, ChildOf j i → i ≠ pos → j ≠ pos → KeyLe h i j

theorem isHeap_nil : IsHeap [] := by
  intro i j hcj x y hx hy
  unfold keyAt at hx
  simp at hx

theorem smallerChild_isSome (h : List Entry) (pos : Nat) (hc : 2 * pos + 1 < h.length) :
    (h[smallerChild h pos]?).isSome = true := by
  rcases h1 : h[2 * pos + 1]? with _ | l
  · exact absurd (List.getElem?_eq_none_iff.mp h1) (by omega)
  · rcases h2 : h[2 * pos + 2]? with _ | r
    · rw [show smallerChild h pos = 2 * pos + 1 by simp [smallerChild, h1, h2], h1]
      rfl
    · by_cases hlr : entLt l r = some true
      · rw [show smallerChild h pos = 2 * pos + 1 by simp [smallerChild, h1, h2, hlr], h1]
        rfl
      · rw [show smallerChild h pos = 2 * pos + 2 by simp [smallerChild, h1, h2, hlr], h2]
        rfl

theorem smallerChild_min (h : List Entry) (pos : Nat) (c : Entry)
    (hTie : childTie h pos = false)
    (hp : h[smallerChild h pos]? = some c) :
    ∀ j, ChildOf j pos → ∀ y, keyAt h j = some y → c.1 ≤ y := by
  intro j hcj y hy
  have hjlen := keyAt_isSome h j y hy
  rcases h1 : h[2 * pos + 1]? with _ | l
  · exfalso
    have hlen1 := List.getElem?_eq_none_iff.mp h1
    rcases hcj with rfl | rfl <;> omega
  · rcases h2 : h[2 * pos + 2]? with _ | r
    · have hsc : smallerChild h pos = 2 * pos + 1 := by simp [smallerChild, h1, h2]
      rw [hsc, h1] at hp
      cases hp
      rcases hcj with rfl | rfl
      · rw [keyAt_eq h _ _ h1] at hy
        cases hy
        exact le_refl _
      · exfalso
        have hlen2 := List.getElem?_eq_none_iff.mp h2
        omega
    · have hne : ¬ entLt l r = none := by
        unfold childTie at hTie
        rw [h1, h2] at hTie
        have hTie2 : (entLt l r).isNone = false := hTie
        intro hcon
        rw [hcon] at hTie2
        cases hTie2
      by_cases hlr : entLt l r = some true
      · have hsc : smallerChild h pos = 2 * pos + 1 := by simp [smallerChild, h1, h2, hlr]
        rw [hsc, h1] at hp
        cases hp
        rcases hcj with rfl | rfl
        · rw [keyAt_eq h _ _ h1] at hy
          cases hy
          exact le_refl _
        · rw [keyAt_eq h _ _ h2] at hy
          cases hy
          exact le_of_lt (entLt_true_lt _ _ hlr)
      · have hsc : smallerChild h pos = 2 * pos + 2 := by simp [smallerChild, h1, h2, hlr]
        have hfalse : entLt l r = some false := by
          rcases hE : entLt l r with _ | b
          · exact absurd hE hne
          · cases b
            · rfl
            · exact absurd hE hlr
        rw [hsc, h2] at hp
        cases hp
        rcases hcj with rfl | rfl
        · rw [keyAt_eq h _ _ h1] at hy
          cases hy
          exact entLt_false_le _ _ hfalse
        · rw [keyAt_eq h _ _ h2] at hy
          cases hy
          exact le_refl _

theorem siftdown_isHeap (h : List Entry) (pos : Nat) (item : Entry) :
    ∀ h2 : List Entry,
    pos < h.length →
    PairsOkExcept h pos →
    (∀ j, ChildOf j pos → ∀ y, keyAt h j = some y → item.1 ≤ y) →
    (0 < pos → ∀ j, ChildOf j pos → ∀ x y, keyAt h ((pos - 1) / 2) = some x →
        keyAt h j = some y → x ≤ y) →
    siftdown h pos item = .ok h2 →
    IsHeap h2 := by
  induction h, pos, item using siftdown.induct with
  | case1 h pos item hpos parent hp hE ih =>
    intro h2 hlen hA hB hC hok
    have hlt : item.1 < parent.1 := entLt_true_lt _ _ hE
    have hpkey : keyAt h ((pos - 1) / 2) = some parent.1 := keyAt_eq h _ parent hp
    have hpplt : (pos - 1) / 2 < pos := by omega
    rw [siftdown] at hok
    simp only [if_pos hpos, hp, hE] at hok
    refine ih h2 ?_ ?_ ?_ ?_ hok
    · simp only [List.length_set]
      omega
    · intro i j hcj hi hj x y hx hy
      by_cases hjpos : j = pos
      · exfalso
        apply hi
        rw [← hcj.parent_eq, hjpos]
      · by_cases hipos : i = pos
        · rw [hipos] at hx hcj
          rw [keyAt_set_self h pos parent hlen] at hx
          cases hx
          rw [keyAt_set_ne h pos j parent (Ne.symm hjpos)] at hy
          exact hC hpos j hcj parent.1 y hpkey hy
        · rw [keyAt_set_ne h pos i parent (Ne.symm hipos)] at hx
          rw [keyAt_set_ne h pos j parent (Ne.symm hjpos)] at hy
          exact hA i j hcj hipos hjpos x y hx hy
    · intro j hcj y hy
      by_cases hjpos : j = pos
      · rw [hjpos] at hy
        rw [keyAt_set_self h pos parent hlen] at hy
        cases hy
        exact le_of_lt hlt
      · rw [keyAt_set_ne h pos j parent (Ne.symm hjpos)] at hy
        have hple := hA ((pos - 1) / 2) j hcj (by omega) hjpos parent.1 y hpkey hy
        exact le_of_lt (lt_of_lt_of_le hlt hple)
    · intro hPpos j hcj x y hx hy
      rw [keyAt_set_ne h pos _ parent (by omega)] at hx
      by_cases hjpos : j = pos
      · rw [hjpos] at hy
        rw [keyAt_set_self h pos parent hlen] at hy
        cases hy
        exact hA _ _ (childOf_parent hPpos) (by omega) (by omega) x parent.1 hx hpkey
      · rw [keyAt_set_ne h pos j parent (Ne.symm hjpos)] at hy
        have hk1 := hA _ _ (childOf_parent hPpos) (by omega) (by omega) x parent.1 hx hpkey
        have hk2 := hA _ _ hcj (by omega) hjpos parent.1 y hpkey hy
        exact le_trans hk1 hk2
  | case2 h pos item hpos parent hp hE =>
    intro h2 hlen hA hB hC hok
    have hpkey : keyAt h ((pos - 1) / 2) = some parent.1 := keyAt_eq h _ parent hp
    rw [siftdown] at hok
    simp only [if_pos hpos, hp, hE] at hok
    cases hok
    intro i j hcj x y hx hy
    by_cases hjpos : j = pos
    · rw [hjpos] at hy hcj
      rw [keyAt_set_self h pos item hlen] at hy
      cases hy
      have hij : (pos - 1) / 2 = i := hcj.parent_eq
      rw [keyAt_set_ne h pos i item (by omega)] at hx
      rw [← hij, hpkey] at hx
      cases hx
      exact entLt_false_le _ _ hE
    · by_cases hipos : i = pos
      · rw [hipos] at hx hcj
        rw [keyAt_set_self h pos item hlen] at hx
        cases hx
        rw [keyAt_set_ne h pos j item (Ne.symm hjpos)] at hy
        exact hB j hcj y hy
      · rw [keyAt_set_ne h pos i item (Ne.symm hipos)] at hx
        rw [keyAt_set_ne h pos j item (Ne.symm hjpos)] at hy
        exact hA i j hcj hipos hjpos x y hx hy
  | case3 h pos item hpos parent hp hE =>
    intro h2 hlen hA hB hC hok
    rw [siftdown] at hok
    simp only [if_pos hpos, hp, hE] at hok
    cases hok
  | case4 h pos item hpos hp =>
    intro h2 hlen hA hB hC hok
    exfalso
    have := List.getElem?_eq_none_iff.mp hp
    omega
  | case5 h pos item hpos =>
    intro h2 hlen hA hB hC hok
    rw [siftdown] at hok
    simp only [if_neg hpos] at hok
    cases hok
    intro i j hcj x y hx hy
    have hj0 : j ≠ pos := by
      have hgt := hcj.gt
      omega
    by_cases hipos : i = pos
    · rw [hipos] at hx hcj
      rw [keyAt_set_self h pos item hlen] at hx
      cases hx
      rw [keyAt_set_ne h pos j item (Ne.symm hj0)] at hy
      exact hB j hcj y hy
    · rw [keyAt_set_ne h pos i item (Ne.symm hipos)] at hx
      rw [keyAt_set_ne h pos j item (Ne.symm hj0)] at hy
      exact hA i j hcj hipos hj0 x y hx hy

theorem siftup_isHeap (h : List Entry) (pos : Nat) (item : Entry) :
    ∀ h2 : List Entry,
    pos < h.length →
    PairsOkExcept h pos →
    (0 < pos → ∀ j, ChildOf j pos → ∀ x y, keyAt h ((pos - 1) / 2) = some x →
        keyAt h j = some y → x ≤ y) →
    siftup h pos item = .ok h2 →
    IsHeap h2 := by
  induction h, pos, item using siftup.induct with
  | case1 h pos item hc hTie =>
    intro h2 hlen hA hC hok
    rw [siftup] at hok
    simp only [if_pos hc, hTie] at hok
    cases hok
  | case2 h pos item hc hTie c hp ih =>
    intro h2 hlen hA hC hok
    have hTf : childTie h pos = false := by
      rcases hT : childTie h pos with _ | _
      · rfl
      · exact absurd hT hTie
    have hsc_child : ChildOf (smallerChild h pos) pos := smallerChild_childOf h pos
    have hsc_gt : pos < smallerChild h pos := smallerChild_gt h pos
    have hsc_lt : smallerChild h pos < h.length := (List.getElem?_eq_some.mp hp).1
    have hckey : keyAt h (smallerChild h pos) = some c.1 := keyAt_eq h _ c hp
    have hmin := smallerChild_min h pos c hTf hp
    rw [siftup] at hok
    simp only [if_pos hc, hTf, Bool.false_eq_true, if_false, hp] at hok
    refine ih h2 ?_ ?_ ?_ hok
    · simp only [List.length_set]
      exact hsc_lt
    · intro i j hcj hi hj x y hx hy
      by_cases hjpos : j = pos
      · rw [hjpos] at hy hcj
        rw [keyAt_set_self h pos c hlen] at hy
        cases hy
        have hij : (pos - 1) / 2 = i := hcj.parent_eq
        have hpos0 : 0 < pos := by
          rcases hcj with h1 | h1 <;> omega
        rw [keyAt_set_ne h pos i c (by omega)] at hx
        exact hC hpos0 (smallerChild h pos) hsc_child x c.1 (by rw [hij]; exact hx) hckey
      · by_cases hipos : i = pos
        · rw [hipos] at hx hcj
          rw [keyAt_set_self h pos c hlen] at hx
          cases hx
          rw [keyAt_set_ne h pos j c (Ne.symm hjpos)] at hy
          exact hmin j hcj y hy
        · rw [keyAt_set_ne h pos i c (Ne.symm hipos)] at hx
          rw [keyAt_set_ne h pos j c (Ne.symm hjpos)] at hy
          exact hA i j hcj hipos hjpos x y hx hy
    · intro hscpos j hcj x y hx hy
      have hparent : (smallerChild h pos - 1) / 2 = pos := hsc_child.parent_eq
      rw [hparent] at hx
      rw [keyAt_set_self h pos c hlen] at hx
      cases hx
      have hjgt : smallerChild h pos < j := hcj.gt
      rw [keyAt_set_ne h pos j c (by omega)] at hy
      exact hA (smallerChild h pos) j hcj (by omega) (by omega) c.1 y hckey hy
  | case3 h pos item hc hTie hp =>
    intro h2 hlen hA hC hok
    exfalso
    have := smallerChild_isSome h pos hc
    rw [hp] at this
    cases this
  | case4 h pos item hc =>
    intro h2 hlen hA hC hok
    rw [siftup] at hok
    simp only [if_neg hc] at hok
    refine siftdown_isHeap (h.set pos item) pos item h2 ?_ ?_ ?_ ?_ hok
    · simp only [List.length_set]
      exact hlen
    · intro i j hcj hi hj x y hx hy
      rw [keyAt_set_ne h pos i item (Ne.symm hi)] at hx
      rw [keyAt_set_ne h pos j item (Ne.symm hj)] at hy
      exact hA i j hcj hi hj x y hx hy
    · intro j hcj y hy
      exfalso
      have hjl := keyAt_isSome _ j y hy
      simp only [List.length_set] at hjl
      rcases hcj with rfl | rfl <;> omega
    · intro hpos j hcj x y hx hy
      have hpp : (pos - 1) / 2 ≠ pos := by omega
      have hjne : j ≠ pos := by
        have := hcj.gt
        omega
      rw [keyAt_set_ne h pos _ item (Ne.symm hpp)] at hx
      rw [keyAt_set_ne h pos j item (Ne.symm hjne)] at hy
      exact hC hpos j hcj x y hx hy

theorem siftdown_heap_length (h : List Entry) (pos : Nat) (item : Entry) :
    (siftdown h pos item).heap.length = h.length := by
  induction h, pos, item using siftdown.induct with
  | case1 h pos item hpos parent hp hE ih =>
    rw [siftdown]
    simp only [if_pos hpos, hp, hE]
    simp only [List.length_set] at ih
    exact ih
  | case2 h pos item hpos parent hp hE =>
    rw [siftdown]
    simp only [if_pos hpos, hp, hE, HRes.heap, List.length_set]
  | case3 h pos item hpos parent hp hE =>
    rw [siftdown]
    simp only [if_pos hpos, hp, hE, HRes.heap]
  | case4 h pos item hpos hp =>
    rw [siftdown]
    simp only [if_pos hpos, hp, HRes.heap, List.length_set]
  | case5 h pos item hpos =>
    rw [siftdown]
    simp only [if_neg hpos, HRes.heap, List.length_set]

theorem siftup_heap_length (h : List Entry) (pos : Nat) (item : Entry) :
    (siftup h pos item).heap.length = h.length := by
  induction h, pos, item using siftup.induct with
  | case1 h pos item hc hTie =>
    rw [siftup, if_pos hc, if_pos hTie]
    rfl
  | case2 h pos item hc hTie c hp ih =>
    have hTf : childTie h pos = false := by
      rcases hT : childTie h pos with _ | _
      · rfl
      · exact absurd hT hTie
    rw [siftup]
    simp only [if_pos hc, hTf, Bool.false_eq_true, if_false, hp]
    simp only [List.length_set] at ih
    exact ih
  | case3 h pos item hc hTie hp =>
    exfalso
    have := smallerChild_isSome h pos hc
    rw [hp] at this
    cases this
  | case4 h pos item hc =>
    rw [siftup]
    simp only [if_neg hc, siftdown_heap_length, List.length_set]

theorem heappush_ok_length (h : List Entry) (item : Entry) (h2 : List Entry)
    (hok : heappush h item = .ok h2) : h2.length = h.length + 1 := by
  have hl := siftdown_heap_length (h ++ [item]) h.length item
  unfold heappush at hok
  rw [hok] at hl
  simpa using hl

theorem heappop_ok_length (h : List Entry) (e : Entry) (rest : List Entry)
    (hp : heappop h = .ok e rest) : rest.length + 1 = h.length := by
  unfold heappop at hp
  rcases hl : h.getLast? with _ | last
  · rw [hl] at hp
    cases hp
  · rw [hl] at hp
    have hne : h ≠ [] := by
      intro hcon
      rw [hcon] at hl
      cases hl
    have hlen : 0 < h.length := List.length_pos.mpr hne
    rcases h0 : (h.dropLast)[0]? with _ | top
    · rw [h0] at hp
      cases hp
      have hd0 : h.dropLast.length = 0 := by
        by_contra hcon
        have hpos : 0 < h.dropLast.length := Nat.pos_of_ne_zero hcon
        rcases List.getElem?_eq_some.mpr ⟨hpos, rfl⟩ with h1
        rw [h0] at h1
        cases h1
      simp only [List.length_dropLast] at hd0
      simp only [List.length_nil]
      omega
    · rw [h0] at hp
      have hp2 : (match siftup (h.dropLast.set 0 last) 0 last with
          | HRes.ok h2 => PopRes.ok top h2
          | HRes.typeError h2 => PopRes.typeError h2) = PopRes.ok e rest := hp
      rcases hs : siftup (h.dropLast.set 0 last) 0 last with h2 | h2
      · rw [hs] at hp2
        cases hp2
        have := siftup_heap_length (h.dropLast.set 0 last) 0 last
        rw [hs] at this
        simp only [HRes.heap, List.length_set, List.length_dropLast] at this
        omega
      · rw [hs] at hp2
        cases hp2

theorem heappush_isHeap (h : List Entry) (item : Entry) (h2 : List Entry)
    (hh : IsHeap h) (hok : heappush h item = .ok h2) : IsHeap h2 := by
  unfold heappush at hok
  refine siftdown_isHeap (h ++ [item]) h.length item h2 (by simp) ?_ ?_ ?_ hok
  · intro i j hcj hi hj x y hx hy
    have hjlen := keyAt_isSome _ j y hy
    simp only [List.length_append, List.length_cons, List.length_nil] at hjlen
    have hjlt : j < h.length := by omega
    have hilt : i < h.length := lt_trans hcj.gt hjlt
    unfold keyAt at hx hy
    rw [List.getElem?_append_left hilt] at hx
    rw [List.getElem?_append_left hjlt] at hy
    exact hh i j hcj x y hx hy
  · intro j hcj y hy
    have := keyAt_isSome _ j y hy
    simp only [List.length_append, List.length_cons, List.length_nil] at this
    rcases hcj with rfl | rfl <;> omega
  · intro hpos j hcj x y hx hy
    have := keyAt_isSome _ j y hy
    simp only [List.length_append, List.length_cons, List.length_nil] at this
    rcases hcj with rfl | rfl <;> omega

theorem heappop_isHeap (h : List Entry) (e : Entry) (rest : List Entry)
    (hh : IsHeap h) (hp : heappop h = .ok e rest) : IsHeap rest := by
  unfold heappop at hp
  rcases hl : h.getLast? with _ | last
  · rw [hl] at hp
    cases hp
  · rw [hl] at hp
    rcases h0 : (h.dropLast)[0]? with _ | top
    · rw [h0] at hp
      cases hp
      exact isHeap_nil
    · rw [h0] at hp
      have hp2 : (match siftup (h.dropLast.set 0 last) 0 last with
          | HRes.ok h2 => PopRes.ok top h2
          | HRes.typeError h2 => PopRes.typeError h2) = PopRes.ok e rest := hp
      rcases hs : siftup (h.dropLast.set 0 last) 0 last with h2 | h2
      · rw [hs] at hp2
        cases hp2
        have h0lt : 0 < h.dropLast.length := (List.getElem?_eq_some.mp h0).1
        refine siftup_isHeap (h.dropLast.set 0 last) 0 last rest ?_ ?_ ?_ hs
        · simp only [List.length_set]
          exact h0lt
        · intro i j hcj hi hj x y hx hy
          have hjlen := keyAt_isSome _ j y hy
          have hilen := keyAt_isSome _ i x hx
          simp only [List.length_set] at hjlen hilen
          rw [keyAt_set_ne _ 0 i last (Ne.symm hi)] at hx
          rw [keyAt_set_ne _ 0 j last (Ne.symm hj)] at hy
          unfold keyAt at hx hy
          rw [List.dropLast_eq_take, List.getElem?_take] at hx hy
          rw [if_pos (by simp only [List.length_dropLast] at hilen; omega)] at hx
          rw [if_pos (by simp only [List.length_dropLast] at hjlen; omega)] at hy
          exact hh i j hcj x y hx hy
        · intro hpos
          exact absurd hpos (by omega)
      · rw [hs] at hp2
        cases hp2

def pushAll (h : List Entry) : List Entry → HRes
  | [] => .ok h
  | e :: rest =>
    match heappush h e with
    | .ok h2 => pushAll h2 rest
    | .typeError h2 => .typeError h2

theorem pushAll_isHeap (l : List Entry) (h : List Entry) (h2 : List Entry)
    (hh : IsHeap h) (hok : pushAll h l = .ok h2) : IsHeap h2 := by
  induction l generalizing h with
  | nil =>
    unfold pushAll at hok
    cases hok
    exact hh
  | cons e rest ih =>
    unfold pushAll at hok
    rcases hs : heappush h e with hm | hm
    · rw [hs] at hok
      exact ih hm (heappush_isHeap h e hm hh hs) hok
    · rw [hs] at hok
      cases hok


/-! ### ProxyPool (server.py) -/

structure PoolCfg where
  min_req_proxy : Nat
  max_error_rate : ℚ
  max_resp_time : ℚ
  min_queue : Nat
  max_import_retries : Nat

/-- The constructor defaults of `ProxyPool` (`strategy` is always "best":
the constructor rejects anything else). -/
def defaultCfg : PoolCfg := ⟨5, 1/2, 8, 5, 100⟩

structure PoolSt where
  pool : List Entry
  newcomers : List ProxyM
deriving DecidableEq

def emptyPool : PoolSt := ⟨[], []⟩

/-- `ProxyPool.put(proxy)`: under `min_req_proxy` requests → newcomers FIFO;
at or above it with too-high error rate or response time → dropped;
otherwise → `heapq.heappush(pool, (avg_resp_time, proxy))`.  The Bool flags a
`TypeError` escaping the push (the partially mutated heap is kept either
way, as the list mutation survives the exception). -/
def poolPut (cfg : PoolCfg) (st : PoolSt) (p : ProxyM) : PoolSt × Bool :=
  if p.requests < cfg.min_req_proxy then
    ({ st with newcomers := st.newcomers ++ [p] }, false)
  else if cfg.min_req_proxy ≤ p.requests ∧
      (cfg.max_error_rate < error_rate p ∨ cfg.max_resp_time < avg_resp_time p) then
    (st, false)
  else
    match heappush st.pool (avg_resp_time p, p) with
    | .ok h2 => ({ st with pool := h2 }, false)
    | .typeError h2 => ({ st with pool := h2 }, true)

theorem poolPut_newcomer (cfg : PoolCfg) (st : PoolSt) (p : ProxyM)
    (h : p.requests < cfg.min_req_proxy) :
    poolPut cfg st p = ({ st with newcomers := st.newcomers ++ [p] }, false) := by
  unfold poolPut
  rw [if_pos h]

theorem poolPut_drop (cfg : PoolCfg) (st : PoolSt) (p : ProxyM)
    (h1 : cfg.min_req_proxy ≤ p.requests)
    (h2 : cfg.max_error_rate < error_rate p ∨ cfg.max_resp_time < avg_resp_time p) :
    poolPut cfg st p = (st, false) := by
  unfold poolPut
  rw [if_neg (by omega), if_pos ⟨h1, h2⟩]

theorem poolPut_push_ok (cfg : PoolCfg) (st : PoolSt) (p : ProxyM) (h2 : List Entry)
    (hge : cfg.min_req_proxy ≤ p.requests)
    (hok : ¬ (cfg.max_error_rate < error_rate p ∨ cfg.max_resp_time < avg_resp_time p))
    (hp : heappush st.pool (avg_resp_time p, p) = .ok h2) :
    poolPut cfg st p = ({ st with pool := h2 }, false) := by
  unfold poolPut
  rw [if_neg (by omega), if_neg (fun hcon => hok hcon.2), hp]

theorem poolPut_push_crash (cfg : PoolCfg) (st : PoolSt) (p : ProxyM) (h2 : List Entry)
    (hge : cfg.min_req_proxy ≤ p.requests)
    (hok : ¬ (cfg.max_error_rate < error_rate p ∨ cfg.max_resp_time < avg_resp_time p))
    (hp : heappush st.pool (avg_resp_time p, p) = .typeError h2) :
    poolPut cfg st p = ({ st with pool := h2 }, true) := by
  unfold poolPut
  rw [if_neg (by omega), if_neg (fun hcon => hok hcon.2), hp]

/-- The `NoProxyError` variants `_import` can raise. -/
inductive ImpErr where
  | timeout
  | nullSentinel
  | maxRetries
deriving DecidableEq

/-- What `ProxyPool.get`/`_import` can raise: a `NoProxyError`, or the
`TypeError` escaping a tuple comparison inside `heapq`. -/
inductive GetErr where
  | noProxy (e : ImpErr)
  | typeError
deriving DecidableEq

/-- Did the call end in the escaping `TypeError`? -/
def crashed : Except GetErr ProxyM → Bool
  | .error .typeError => true
  | _ => false

/-- `ProxyPool._import(expected_scheme)`: pull from the check-result queue;
a falsy value (the null sentinel) raises `NoProxyError` at once; a
scheme-incompatible proxy is re-`put` — which itself can raise `TypeError`
out of `_import`, dropping the pulled proxy — and costs one retry; a
compatible proxy is returned.  `queue` lists the values that arrive before
the import timeout would fire, so running off its end is the
`asyncio.TimeoutError` path; `fuel` is the remaining retry budget (initially
`max_import_retries`). -/
def importLoop (cfg : PoolCfg) (scheme : String) :
    PoolSt → List (Option ProxyM) → Nat → PoolSt × Except GetErr ProxyM
  | st, _, 0 => (st, .error (.noProxy .maxRetries))
  | st, [], _ + 1 => (st, .error (.noProxy .timeout))
  | st, none :: _, _ + 1 => (st, .error (.noProxy .nullSentinel))
  | st, some p :: rest, fuel + 1 =>
    if scheme ∈ p.schemes then (st, .ok p)
    else
      match poolPut cfg st p with
      | (st2, true) => (st2, .error .typeError)
      | (st2, false) => importLoop cfg scheme st2 rest fuel

/-- The outcome of the best-strategy heap scan of `ProxyPool.get`. -/
inductive ScanRes where
  | found (p : ProxyM) (pool : List Entry)
  | notFound (pool : List Entry)
  | typeError (pool : List Entry)
deriving DecidableEq

/-- The heap-scanning loop of `ProxyPool.get` under the best strategy: pop
until a scheme-compatible proxy appears; skipped entries are collected in
`temp` and pushed back afterwards (in FIFO order, as the source's for-loop
does).  A `TypeError` in a pop or push-back escapes, losing the found proxy
and the not-yet-re-pushed `temp` entries. -/
def bestScan (scheme : String) (pool : List Entry) (temp : List Entry) : ScanRes :=
  match hpop : heappop pool with
  | .empty =>
    match pushAll pool temp with
    | .ok h2 => .notFound h2
    | .typeError h2 => .typeError h2
  | .typeError h2 => .typeError h2
  | .ok e rest =>
    if scheme ∈ e.2.schemes then
      match pushAll rest temp with
      | .ok h2 => .found e.2 h2
      | .typeError h2 => .typeError h2
    else bestScan scheme rest (temp ++ [e])
termination_by pool.length
decreasing_by
  have hlen := heappop_ok_length pool e rest hpop
  omega

/-- `ProxyPool.get(scheme)` (the scheme is already upper-cased): below
`min_queue` → import; else pop the newcomer FIFO front — with no scheme
check — else scan the heap, falling back to import. -/
def poolGet (cfg : PoolCfg) (st : PoolSt) (scheme : String)
    (queue : List (Option ProxyM)) : PoolSt × Except GetErr ProxyM :=
  if st.pool.length + st.newcomers.length < cfg.min_queue then
    importLoop cfg scheme st queue cfg.max_import_retries
  else
    match st.newcomers with
    | p :: rest => ({ st with newcomers := rest }, .ok p)
    | [] =>
      match bestScan scheme st.pool [] with
      | .found p pool2 => ({ st with pool := pool2 }, .ok p)
      | .notFound pool2 =>
        importLoop cfg scheme { st with pool := pool2 } queue cfg.max_import_retries
      | .typeError pool2 => ({ st with pool := pool2 }, .error .typeError)

inductive PoolOp where
  | put (p : ProxyM)
  | get (scheme : String) (queue : List (Option ProxyM))

/-- One pool operation; the Bool reports an escaping `TypeError` (the server
process survives it: the exception propagates out of the handler while the
pool object keeps its state). -/
def runPoolOpE (cfg : PoolCfg) (st : PoolSt) : PoolOp → PoolSt × Bool
  | .put p => poolPut cfg st p
  | .get scheme queue =>
    ((poolGet cfg st scheme queue).1, crashed (poolGet cfg st scheme queue).2)

def poolStep (cfg : PoolCfg) (acc : PoolSt × Bool) (op : PoolOp) : PoolSt × Bool :=
  ((runPoolOpE cfg acc.1 op).1, acc.2 || (runPoolOpE cfg acc.1 op).2)

/-- Run a sequence of pool operations from the empty pool; the Bool is true
iff some operation raised `TypeError` along the way. -/
def runPoolE (cfg : PoolCfg) (ops : List PoolOp) : PoolSt × Bool :=
  ops.foldl (poolStep cfg) (emptyPool, false)

theorem poolStep_cons (cfg : PoolCfg) (op : PoolOp) (ops : List PoolOp)
    (st : PoolSt) (b : Bool) (st2 : PoolSt) (c : Bool)
    (h : runPoolOpE cfg st op = (st2, c)) :
    (op :: ops).foldl (poolStep cfg) (st, b) = ops.foldl (poolStep cfg) (st2, b || c) := by
  simp only [List.foldl_cons, poolStep, h]

theorem poolPut_isHeap (cfg : PoolCfg) (st : PoolSt) (p : ProxyM)
    (hh : IsHeap st.pool) (hnc : (poolPut cfg st p).2 = false) :
    IsHeap (poolPut cfg st p).1.pool := by
  by_cases hreq : p.requests < cfg.min_req_proxy
  · rw [poolPut_newcomer cfg st p hreq]
    exact hh
  · by_cases hbad : cfg.max_error_rate < error_rate p ∨ cfg.max_resp_time < avg_resp_time p
    · rw [poolPut_drop cfg st p (by omega) hbad]
      exact hh
    · rcases hp : heappush st.pool (avg_resp_time p, p) with h2 | h2
      · rw [poolPut_push_ok cfg st p h2 (by omega) hbad hp]
        exact heappush_isHeap st.pool _ h2 hh hp
      · rw [poolPut_push_crash cfg st p h2 (by omega) hbad hp] at hnc
        cases hnc


theorem importLoop_isHeap (cfg : PoolCfg) (scheme : String) :
    ∀ (fuel : Nat) (queue : List (Option ProxyM)) (st : PoolSt),
      IsHeap st.pool →
      crashed (importLoop cfg scheme st queue fuel).2 = false →
      IsHeap (importLoop cfg scheme st queue fuel).1.pool := by
  intro fuel
  induction fuel with
  | zero =>
    intro queue st hh hnc
    simp only [importLoop]
    exact hh
  | succ n ih =>
    intro queue st hh hnc
    match queue with
    | [] =>
      simp only [importLoop]
      exact hh
    | none :: rest =>
      simp only [importLoop]
      exact hh
    | some p :: rest =>
      by_cases hs : scheme ∈ p.schemes
      · simp only [importLoop, if_pos hs]
        exact hh
      · simp only [importLoop, if_neg hs] at hnc ⊢
        rcases hput : poolPut cfg st p with ⟨st2, c⟩
        cases c with
        | true =>
          rw [hput] at hnc
          exact Bool.noConfusion hnc
        | false =>
          rw [hput] at hnc
          have hnc2 : crashed (importLoop cfg scheme st2 rest n).2 = false := hnc
          have hh2 : IsHeap st2.pool := by
            have := poolPut_isHeap cfg st p hh (by rw [hput])
            rw [hput] at this
            exact this
          exact ih rest st2 hh2 hnc2

theorem bestScan_found_isHeap (scheme : String) (pool temp : List Entry) :
    ∀ p h2, IsHeap pool → bestScan scheme pool temp = .found p h2 → IsHeap h2 := by
  induction pool, temp using bestScan.induct scheme with
  | case1 pool temp hpop ha hpa =>
    intro p h2 hh hbs
    rw [bestScan] at hbs
    split at hbs
    · rcases hpa2 : pushAll pool temp with h' | h'
      · rw [hpa2] at hbs
        cases hbs
      · rw [hpa2] at hbs
        cases hbs
    · cases hbs
    · rename_i e' rest' heq
      rw [hpop] at heq
      cases heq
  | case2 pool temp hpop ha hpa =>
    intro p h2 hh hbs
    rw [bestScan] at hbs
    split at hbs
    · rcases hpa2 : pushAll pool temp with h' | h'
      · rw [hpa2] at hbs
        cases hbs
      · rw [hpa2] at hbs
        cases hbs
    · cases hbs
    · rename_i e' rest' heq
      rw [hpop] at heq
      cases heq
  | case3 pool temp h2x hpop =>
    intro p h2 hh hbs
    rw [bestScan] at hbs
    split at hbs
    · rcases hpa2 : pushAll pool temp with h' | h'
      · rw [hpa2] at hbs
        cases hbs
      · rw [hpa2] at hbs
        cases hbs
    · rename_i heq
      rw [hpop] at heq
      cases heq
      cases hbs
    · rename_i e' rest' heq
      rw [hpop] at heq
      cases heq
  | case4 pool temp e rest hpop hs ha hpa =>
    intro p h2 hh hbs
    rw [bestScan] at hbs
    split at hbs
    · rename_i heq
      rw [hpop] at heq
      cases heq
    · rename_i heq
      rw [hpop] at heq
      cases heq
    · rename_i e' rest' heq
      rw [hpop] at heq
      cases heq
      rw [if_pos hs] at hbs
      rcases hpa2 : pushAll rest temp with h' | h'
      · rw [hpa2] at hbs
        cases hbs
        exact pushAll_isHeap temp rest h2 (heappop_isHeap pool e rest hh hpop) hpa2
      · rw [hpa2] at hbs
        cases hbs
  | case5 pool temp e rest hpop hs ha hpa =>
    intro p h2 hh hbs
    rw [bestScan] at hbs
    split at hbs
    · rename_i heq
      rw [hpop] at heq
      cases heq
    · rename_i heq
      rw [hpop] at heq
      cases heq
    · rename_i e' rest' heq
      rw [hpop] at heq
      cases heq
      rw [if_pos hs] at hbs
      rcases hpa2 : pushAll rest temp with h' | h'
      · rw [hpa2] at hbs
        cases hbs
        exact pushAll_isHeap temp rest h2 (heappop_isHeap pool e rest hh hpop) hpa2
      · rw [hpa2] at hbs
        cases hbs
  | case6 pool temp e rest hpop hs ih =>
    intro p h2 hh hbs
    rw [bestScan] at hbs
    split at hbs
    · rename_i heq
      rw [hpop] at heq
      cases heq
    · rename_i heq
      rw [hpop] at heq
      cases heq
    · rename_i e' rest' heq
      rw [hpop] at heq
      cases heq
      rw [if_neg hs] at hbs
      exact ih p h2 (heappop_isHeap pool e rest hh hpop) hbs

theorem bestScan_notFound_isHeap (scheme : String) (pool temp : List Entry) :
    ∀ h2, IsHeap pool → bestScan scheme pool temp = .notFound h2 → IsHeap h2 := by
  induction pool, temp using bestScan.induct scheme with
  | case1 pool temp hpop ha hpa =>
    intro h2 hh hbs
    rw [bestScan] at hbs
    split at hbs
    · rcases hpa2 : pushAll pool temp with h' | h'
      · rw [hpa2] at hbs
        cases hbs
        exact pushAll_isHeap temp pool h2 hh hpa2
      · rw [hpa2] at hbs
        cases hbs
    · cases hbs
    · rename_i e' rest' heq
      rw [hpop] at heq
      cases heq
  | case2 pool temp hpop ha hpa =>
    intro h2 hh hbs
    rw [bestScan] at hbs
    split at hbs
    · rcases hpa2 : pushAll pool temp with h' | h'
      · rw [hpa2] at hbs
        cases hbs
        exact pushAll_isHeap temp pool h2 hh hpa2
      · rw [hpa2] at hbs
        cases hbs
    · cases hbs
    · rename_i e' rest' heq
      rw [hpop] at heq
      cases heq
  | case3 pool temp h2x hpop =>
    intro h2 hh hbs
    rw [bestScan] at hbs
    split at hbs
    · rcases hpa2 : pushAll pool temp with h' | h'
      · rw [hpa2] at hbs
        cases hbs
        exact pushAll_isHeap temp pool h2 hh hpa2
      · rw [hpa2] at hbs
        cases hbs
    · rename_i heq
      rw [hpop] at heq
      cases heq
      cases hbs
    · rename_i e' rest' heq
      rw [hpop] at heq
      cases heq
  | case4 pool temp e rest hpop hs ha hpa =>
    intro h2 hh hbs
    rw [bestScan] at hbs
    split at hbs
    · rename_i heq
      rw [hpop] at heq
      cases heq
    · rename_i heq
      rw [hpop] at heq
      cases heq
    · rename_i e' rest' heq
      rw [hpop] at heq
      cases heq
      rw [if_pos hs] at hbs
      rcases hpa2 : pushAll rest temp with h' | h'
      · rw [hpa2] at hbs
        cases hbs
      · rw [hpa2] at hbs
        cases hbs
  | case5 pool temp e rest hpop hs ha hpa =>
    intro h2 hh hbs
    rw [bestScan] at hbs
    split at hbs
    · rename_i heq
      rw [hpop] at heq
      cases heq
    · rename_i heq
      rw [hpop] at heq
      cases heq
    · rename_i e' rest' heq
      rw [hpop] at heq
      cases heq
      rw [if_pos hs] at hbs
      rcases hpa2 : pushAll rest temp with h' | h'
      · rw [hpa2] at hbs
        cases hbs
      · rw [hpa2] at hbs
        cases hbs
  | case6 pool temp e rest hpop hs ih =>
    intro h2 hh hbs
    rw [bestScan] at hbs
    split at hbs
    · rename_i heq
      rw [hpop] at heq
      cases heq
    · rename_i heq
      rw [hpop] at heq
      cases heq
    · rename_i e' rest' heq
      rw [hpop] at heq
      cases heq
      rw [if_neg hs] at hbs
      exact ih h2 (heappop_isHeap pool e rest hh hpop) hbs

theorem bestScan_found_schemes (scheme : String) (pool temp : List Entry) :
    ∀ p h2, bestScan scheme pool temp = .found p h2 → scheme ∈ p.schemes := by
  induction pool, temp using bestScan.induct scheme with
  | case1 pool temp hpop ha hpa =>
    intro p h2 hbs
    rw [bestScan] at hbs
    split at hbs
    · rcases hpa2 : pushAll pool temp with h' | h'
      · rw [hpa2] at hbs
        cases hbs
      · rw [hpa2] at hbs
        cases hbs
    · cases hbs
    · rename_i e' rest' heq
      rw [hpop] at heq
      cases heq
  | case2 pool temp hpop ha hpa =>
    intro p h2 hbs
    rw [bestScan] at hbs
    split at hbs
    · rcases hpa2 : pushAll pool temp with h' | h'
      · rw [hpa2] at hbs
        cases hbs
      · rw [hpa2] at hbs
        cases hbs
    · cases hbs
    · rename_i e' rest' heq
      rw [hpop] at heq
      cases heq
  | case3 pool temp h2x hpop =>
    intro p h2 hbs
    rw [bestScan] at hbs
    split at hbs
    · rcases hpa2 : pushAll pool temp with h' | h'
      · rw [hpa2] at hbs
        cases hbs
      · rw [hpa2] at hbs
        cases hbs
    · rename_i heq
      rw [hpop] at heq
      cases heq
      cases hbs
    · rename_i e' rest' heq
      rw [hpop] at heq
      cases heq
  | case4 pool temp e rest hpop hs ha hpa =>
    intro p h2 hbs
    rw [bestScan] at hbs
    split at hbs
    · rename_i heq
      rw [hpop] at heq
      cases heq
    · rename_i heq
      rw [hpop] at heq
      cases heq
    · rename_i e' rest' heq
      rw [hpop] at heq
      cases heq
      rw [if_pos hs] at hbs
      rcases hpa2 : pushAll rest temp with h' | h'
      · rw [hpa2] at hbs
        cases hbs
        exact hs
      · rw [hpa2] at hbs
        cases hbs
  | case5 pool temp e rest hpop hs ha hpa =>
    intro p h2 hbs
    rw [bestScan] at hbs
    split at hbs
    · rename_i heq
      rw [hpop] at heq
      cases heq
    · rename_i heq
      rw [hpop] at heq
      cases heq
    · rename_i e' rest' heq
      rw [hpop] at heq
      cases heq
      rw [if_pos hs] at hbs
      rcases hpa2 : pushAll rest temp with h' | h'
      · rw [hpa2] at hbs
        cases hbs
        exact hs
      · rw [hpa2] at hbs
        cases hbs
  | case6 pool temp e rest hpop hs ih =>
    intro p h2 hbs
    rw [bestScan] at hbs
    split at hbs
    · rename_i heq
      rw [hpop] at heq
      cases heq
    · rename_i heq
      rw [hpop] at heq
      cases heq
    · rename_i e' rest' heq
      rw [hpop] at heq
      cases heq
      rw [if_neg hs] at hbs
      exact ih p h2 hbs

theorem poolGet_import (cfg : PoolCfg) (st : PoolSt) (scheme : String)
    (queue : List (Option ProxyM))
    (hq : st.pool.length + st.newcomers.length < cfg.min_queue) :
    poolGet cfg st scheme queue =
      importLoop cfg scheme st queue cfg.max_import_retries := by
  unfold poolGet
  rw [if_pos hq]

theorem poolGet_newcomer (cfg : PoolCfg) (st : PoolSt) (scheme : String)
    (queue : List (Option ProxyM)) (p : ProxyM) (rest : List ProxyM)
    (hq : ¬ st.pool.length + st.newcomers.length < cfg.min_queue)
    (hnw : st.newcomers = p :: rest) :
    poolGet cfg st scheme queue = ({ st with newcomers := rest }, .ok p) := by
  unfold poolGet
  rw [if_neg hq, hnw]

theorem poolGet_scan_found (cfg : PoolCfg) (st : PoolSt) (scheme : String)
    (queue : List (Option ProxyM)) (p : ProxyM) (pool2 : List Entry)
    (hq : ¬ st.pool.length + st.newcomers.length < cfg.min_queue)
    (hnw : st.newcomers = [])
    (hbs : bestScan scheme st.pool [] = .found p pool2) :
    poolGet cfg st scheme queue = ({ st with pool := pool2 }, .ok p) := by
  unfold poolGet
  rw [if_neg hq, hnw, hbs]

theorem poolGet_scan_notFound (cfg : PoolCfg) (st : PoolSt) (scheme : String)
    (queue : List (Option ProxyM)) (pool2 : List Entry)
    (hq : ¬ st.pool.length + st.newcomers.length < cfg.min_queue)
    (hnw : st.newcomers = [])
    (hbs : bestScan scheme st.pool [] = .notFound pool2) :
    poolGet cfg st scheme queue =
      importLoop cfg scheme { st with pool := pool2 } queue cfg.max_import_retries := by
  unfold poolGet
  rw [if_neg hq, hnw, hbs]

theorem poolGet_scan_crash (cfg : PoolCfg) (st : PoolSt) (scheme : String)
    (queue : List (Option ProxyM)) (pool2 : List Entry)
    (hq : ¬ st.pool.length + st.newcomers.length < cfg.min_queue)
    (hnw : st.newcomers = [])
    (hbs : bestScan scheme st.pool [] = .typeError pool2) :
    poolGet cfg st scheme queue = ({ st with pool := pool2 }, .error .typeError) := by
  unfold poolGet
  rw [if_neg hq, hnw, hbs]

theorem poolGet_isHeap (cfg : PoolCfg) (st : PoolSt) (scheme : String)
    (queue : List (Option ProxyM)) (hh : IsHeap st.pool)
    (hnc : crashed (poolGet cfg st scheme queue).2 = false) :
    IsHeap (poolGet cfg st scheme queue).1.pool := by
  by_cases hq : st.pool.length + st.newcomers.length < cfg.min_queue
  · rw [poolGet_import cfg st scheme queue hq] at hnc ⊢
    exact importLoop_isHeap cfg scheme _ queue st hh hnc
  · rcases hnw : st.newcomers with _ | ⟨p, rest⟩
    · rcases hbs : bestScan scheme st.pool [] with ⟨p2, pool2⟩ | pool2 | pool2
      · rw [poolGet_scan_found cfg st scheme queue p2 pool2 hq hnw hbs]
        exact bestScan_found_isHeap scheme st.pool [] p2 pool2 hh hbs
      · rw [poolGet_scan_notFound cfg st scheme queue pool2 hq hnw hbs] at hnc ⊢
        exact importLoop_isHeap cfg scheme _ queue _
          (bestScan_notFound_isHeap scheme st.pool [] pool2 hh hbs) hnc
      · rw [poolGet_scan_crash cfg st scheme queue pool2 hq hnw hbs] at hnc
        cases hnc
    · rw [poolGet_newcomer cfg st scheme queue p rest hq hnw]
      exact hh

theorem foldl_poolStep_true (cfg : PoolCfg) (ops : List PoolOp) :
    ∀ st : PoolSt, (ops.foldl (poolStep cfg) (st, true)).2 = true := by
  induction ops with
  | nil =>
    intro st
    rfl
  | cons op rest ih =>
    intro st
    simp only [List.foldl_cons, poolStep, Bool.true_or]
    exact ih _

theorem foldl_poolStep_isHeap (cfg : PoolCfg) (ops : List PoolOp) :
    ∀ (st : PoolSt) (b : Bool), IsHeap st.pool →
      (ops.foldl (poolStep cfg) (st, b)).2 = false →
      IsHeap (ops.foldl (poolStep cfg) (st, b)).1.pool := by
  induction ops with
  | nil =>
    intro st b hh hnc
    exact hh
  | cons op rest ih =>
    intro st b hh hnc
    rcases hop : runPoolOpE cfg st op with ⟨st2, c⟩
    rw [poolStep_cons cfg op rest st b st2 c hop] at hnc ⊢
    cases c with
    | true =>
      rw [Bool.or_true] at hnc ⊢
      rw [foldl_poolStep_true cfg rest st2] at hnc
      cases hnc
    | false =>
      have hh2 : IsHeap st2.pool := by
        cases op with
        | put p =>
          have h1 : poolPut cfg st p = (st2, false) := hop
          have := poolPut_isHeap cfg st p hh (by rw [h1])
          rw [h1] at this
          exact this
        | get scheme queue =>
          have h1 : ((poolGet cfg st scheme queue).1, crashed (poolGet cfg st scheme queue).2)
              = (st2, false) := hop
          have h2 : crashed (poolGet cfg st scheme queue).2 = false :=
            congrArg Prod.snd h1
          have h3 := poolGet_isHeap cfg st scheme queue hh h2
          have h4 : (poolGet cfg st scheme queue).1 = st2 := congrArg Prod.fst h1
          rw [h4] at h3
          exact h3
      exact ih st2 (b || false) hh2 hnc

theorem runPoolE_isHeap (cfg : PoolCfg) (ops : List PoolOp)
    (hnc : (runPoolE cfg ops).2 = false) : IsHeap (runPoolE cfg ops).1.pool := by
  unfold runPoolE at hnc ⊢
  exact foldl_poolStep_isHeap cfg ops emptyPool false isHeap_nil hnc

theorem runPoolOpE_put (cfg : PoolCfg) (st : PoolSt) (p : ProxyM)
    (st2 : PoolSt) (c : Bool) (h : poolPut cfg st p = (st2, c)) :
    runPoolOpE cfg st (.put p) = (st2, c) := h

theorem runPoolOpE_get (cfg : PoolCfg) (st : PoolSt) (scheme : String)
    (queue : List (Option ProxyM)) (st2 : PoolSt) (r : Except GetErr ProxyM)
    (h : poolGet cfg st scheme queue = (st2, r)) :
    runPoolOpE cfg st (.get scheme queue) = (st2, crashed r) := by
  show ((poolGet cfg st scheme queue).1, crashed (poolGet cfg st scheme queue).2)
      = (st2, crashed r)
  rw [h]

theorem importLoop_step_found (cfg : PoolCfg) (scheme : String) (st : PoolSt)
    (p : ProxyM) (rest : List (Option ProxyM)) (fuel : Nat)
    (hs : scheme ∈ p.schemes) :
    importLoop cfg scheme st (some p :: rest) (fuel + 1) = (st, .ok p) := by
  simp only [importLoop, if_pos hs]

theorem importLoop_step_ok (cfg : PoolCfg) (scheme : String) (st : PoolSt)
    (p : ProxyM) (rest : List (Option ProxyM)) (fuel : Nat) (st2 : PoolSt)
    (hs : scheme ∉ p.schemes) (hput : poolPut cfg st p = (st2, false)) :
    importLoop cfg scheme st (some p :: rest) (fuel + 1) =
      importLoop cfg scheme st2 rest fuel := by
  simp only [importLoop, if_neg hs, hput]

theorem importLoop_step_crash (cfg : PoolCfg) (scheme : String) (st : PoolSt)
    (p : ProxyM) (rest : List (Option ProxyM)) (fuel : Nat) (st2 : PoolSt)
    (hs : scheme ∉ p.schemes) (hput : poolPut cfg st p = (st2, true)) :
    importLoop cfg scheme st (some p :: rest) (fuel + 1) =
      (st2, .error .typeError) := by
  simp only [importLoop, if_neg hs, hput]


/-! ### Claims C2 and C3 -/

/-- Lexicographic order on the priority pair (error_rate, avg_resp_time). -/
def lexLe (a b : ℚ × ℚ) : Prop := a.1 < b.1 ∨ (a.1 = b.1 ∧ a.2 ≤ b.2)

def prioAt (h : List Entry) (i : Nat) : Option (ℚ × ℚ) :=
  (h[i]?).map (fun e => priority e.2)

/-- The min-heap property claimed by the spec: parents at most children with
respect to the (error_rate, avg_resp_time) lexicographic priority. -/
def IsHeapPrio (h : List Entry) : Prop :=
  ∀ i j, ChildOf j i → ∀ a b, prioAt h i = some a → prioAt h j = some b → lexLe a b

/-- An HTTP-only proxy with no requests yet (a newcomer). -/
def cxNewA : ProxyM := ⟨["HTTP"], 0, [], []⟩

/-- C2 (amended): after a sequence of `ProxyPool.put`/`ProxyPool.get` calls
starting from the empty pool during which no heapq tuple comparison raised
`TypeError`, the internal heap satisfies the min-heap property with respect
to its stored keys — the `avg_resp_time` recorded at insertion time — not
with respect to the pair (error_rate, avg_resp_time); on a key tie between
distinct proxies the comparison raises `TypeError` and even the key ordering
can be destroyed. -/
theorem c2_heap_invariant (cfg : PoolCfg) (ops : List PoolOp)
    (hnc : (runPoolE cfg ops).2 = false) :
    IsHeap (runPoolE cfg ops).1.pool :=
  runPoolE_isHeap cfg ops hnc

/-- Witness for C2's amended theorem: a put of a fresh proxy and a get that
ends in the import-timeout path raise nothing, and the heap (empty) is a
heap. -/
theorem c2_heap_invariant_witness :
    (runPoolE defaultCfg [PoolOp.put cxNewA, PoolOp.get "HTTPS" []]).2 = false
    ∧ IsHeap (runPoolE defaultCfg [PoolOp.put cxNewA, PoolOp.get "HTTPS" []]).1.pool :=
  ⟨rfl, c2_heap_invariant defaultCfg [PoolOp.put cxNewA, PoolOp.get "HTTPS" []] rfl⟩

/-- Established proxy with 2 errors out of 5 requests (error_rate 0.4) and a
1-second average response time. -/
def cxP1 : ProxyM := ⟨["HTTP"], 5, ["err", "err"], [1]⟩

/-- Established proxy with no errors (error_rate 0) and a 2-second average
response time. -/
def cxP2 : ProxyM := ⟨["HTTP"], 5, [], [2]⟩

theorem error_rate_cxP1 : error_rate cxP1 = 2/5 := by
  unfold error_rate cxP1
  rw [if_neg (by norm_num)]
  norm_num
  rw [round2_of_int _ 40 (by norm_num)]
  norm_num

theorem avg_cxP1 : avg_resp_time cxP1 = 1 := by
  unfold avg_resp_time cxP1
  rw [if_neg (by simp)]
  norm_num
  rw [round2_of_int _ 100 (by norm_num)]
  norm_num

theorem error_rate_cxP2 : error_rate cxP2 = 0 := by
  unfold error_rate cxP2
  rw [if_neg (by norm_num)]
  norm_num
  rw [round2_of_int _ 0 (by norm_num)]
  norm_num

theorem avg_cxP2 : avg_resp_time cxP2 = 2 := by
  unfold avg_resp_time cxP2
  rw [if_neg (by simp)]
  norm_num
  rw [round2_of_int _ 200 (by norm_num)]
  norm_num

/-- An established proxy with requests but no errors has error_rate 0. -/
theorem error_rate_est (p : ProxyM) (hreq : p.requests = 5) (herr : p.errmsgs = []) :
    error_rate p = 0 := by
  unfold error_rate
  rw [if_neg (by omega), herr, hreq]
  norm_num
  rw [round2_of_int _ 0 (by norm_num)]
  norm_num

/-- Error-free established proxies with average response times 1–4 s; `cxA`
and `cxB` are distinct proxies with the same avg_resp_time 2. -/
def cxX : ProxyM := ⟨["HTTP"], 5, [], [1]⟩

def cxA : ProxyM := ⟨["HTTP"], 5, [], [2]⟩

def cxB : ProxyM := ⟨["HTTPS"], 5, [], [2]⟩

def cxC : ProxyM := ⟨["HTTP"], 5, [], [3]⟩

def cxD : ProxyM := ⟨["HTTP"], 5, [], [4]⟩

theorem avg_cxX : avg_resp_time cxX = 1 := by
  unfold avg_resp_time cxX
  rw [if_neg (by simp)]
  norm_num
  rw [round2_of_int _ 100 (by norm_num)]
  norm_num

theorem avg_cxA : avg_resp_time cxA = 2 := by
  unfold avg_resp_time cxA
  rw [if_neg (by simp)]
  norm_num
  rw [round2_of_int _ 200 (by norm_num)]
  norm_num

theorem avg_cxB : avg_resp_time cxB = 2 := by
  unfold avg_resp_time cxB
  rw [if_neg (by simp)]
  norm_num
  rw [round2_of_int _ 200 (by norm_num)]
  norm_num

theorem avg_cxC : avg_resp_time cxC = 3 := by
  unfold avg_resp_time cxC
  rw [if_neg (by simp)]
  norm_num
  rw [round2_of_int _ 300 (by norm_num)]
  norm_num

theorem avg_cxD : avg_resp_time cxD = 4 := by
  unfold avg_resp_time cxD
  rw [if_neg (by simp)]
  norm_num
  rw [round2_of_int _ 400 (by norm_num)]
  norm_num

/-- The child comparison `(2, cxA) < (2, cxB)` of CPython raises TypeError:
equal keys, distinct proxies. -/
theorem siftup_c2crash :
    siftup [(4, cxD), (2, cxA), (2, cxB), (3, cxC)] 0 (4, cxD) =
      .typeError [(4, cxD), (2, cxA), (2, cxB), (3, cxC)] := by
  rw [siftup]
  rw [if_pos (by decide),
    if_pos (by decide : childTie [(4, cxD), (2, cxA), (2, cxB), (3, cxC)] 0 = true)]

/-- Popping the 5-element heap crashes in `_siftup`: the root is overwritten
by the last element, then the tied children `(2, cxA)`/`(2, cxB)` raise. -/
theorem heappop_c2crash :
    heappop [(1, cxX), (2, cxA), (2, cxB), (3, cxC), (4, cxD)] =
      .typeError [(4, cxD), (2, cxA), (2, cxB), (3, cxC)] := by
  unfold heappop
  show (match siftup ([(4, cxD), (2, cxA), (2, cxB), (3, cxC)]) 0 (4, cxD) with
      | .ok h2 => PopRes.ok (1, cxX) h2
      | .typeError h2 => PopRes.typeError h2) = _
  rw [siftup_c2crash]

/-- Pushing `(2, cxB)` onto `[(2, cxA), (3, cxC), (4, cxD)]` crashes in
`_siftdown` after one shift: `(3, cxC)` is duplicated, the pushed entry is
lost, and the tied parent `(2, cxA)` raises. -/
theorem heappush_c3crash :
    heappush [(2, cxA), (3, cxC), (4, cxD)] (2, cxB) =
      .typeError [(2, cxA), (3, cxC), (4, cxD), (3, cxC)] := by
  unfold heappush
  show siftdown [(2, cxA), (3, cxC), (4, cxD), (2, cxB)] 3 (2, cxB) = _
  rw [siftdown]
  rw [if_pos (by decide)]
  show (match entLt (2, cxB) (3, cxC) with
    | some true =>
      siftdown ([(2, cxA), (3, cxC), (4, cxD), (2, cxB)].set 3 (3, cxC)) 1 (2, cxB)
    | some false => HRes.ok ([(2, cxA), (3, cxC), (4, cxD), (2, cxB)].set 3 (2, cxB))
    | none => HRes.typeError [(2, cxA), (3, cxC), (4, cxD), (2, cxB)]) = _
  rw [show entLt (2, cxB) (3, cxC) = some true from by decide]
  show siftdown [(2, cxA), (3, cxC), (4, cxD), (3, cxC)] 1 (2, cxB) = _
  rw [siftdown]
  rw [if_pos (by decide)]
  show (match entLt (2, cxB) (2, cxA) with
    | some true =>
      siftdown ([(2, cxA), (3, cxC), (4, cxD), (3, cxC)].set 1 (2, cxA)) 0 (2, cxB)
    | some false => HRes.ok ([(2, cxA), (3, cxC), (4, cxD), (3, cxC)].set 1 (2, cxB))
    | none => HRes.typeError [(2, cxA), (3, cxC), (4, cxD), (3, cxC)]) = _
  rw [show entLt (2, cxB) (2, cxA) = none from by decide]

theorem put_cxP1 : poolPut defaultCfg emptyPool cxP1 = (⟨[(1, cxP1)], []⟩, false) := by
  rw [poolPut_push_ok defaultCfg emptyPool cxP1 [(avg_resp_time cxP1, cxP1)]
    (by norm_num [cxP1, defaultCfg])
    (by rw [error_rate_cxP1, avg_cxP1]; norm_num [defaultCfg])
    (heappush_nil _)]
  rw [avg_cxP1]
  rfl

theorem put_cxP2 :
    poolPut defaultCfg ⟨[(1, cxP1)], []⟩ cxP2 =
      (⟨[(1, cxP1), (2, cxP2)], []⟩, false) := by
  rw [poolPut_push_ok defaultCfg ⟨[(1, cxP1)], []⟩ cxP2 [(1, cxP1), (2, cxP2)]
    (by norm_num [cxP2, defaultCfg])
    (by rw [error_rate_cxP2, avg_cxP2]; norm_num [defaultCfg])
    (by rw [avg_cxP2]
        exact heappush_ge_parent [(1, cxP1)] (2, cxP2) (1, cxP1) rfl
          (by norm_num) (by norm_num))]

theorem put_cxX : poolPut defaultCfg emptyPool cxX = (⟨[(1, cxX)], []⟩, false) := by
  rw [poolPut_push_ok defaultCfg emptyPool cxX [(avg_resp_time cxX, cxX)]
    (by norm_num [cxX, defaultCfg])
    (by rw [error_rate_est cxX rfl rfl, avg_cxX]; norm_num [defaultCfg])
    (heappush_nil _)]
  rw [avg_cxX]
  rfl

theorem put_cxA :
    poolPut defaultCfg ⟨[(1, cxX)], []⟩ cxA = (⟨[(1, cxX), (2, cxA)], []⟩, false) := by
  rw [poolPut_push_ok defaultCfg ⟨[(1, cxX)], []⟩ cxA [(1, cxX), (2, cxA)]
    (by norm_num [cxA, defaultCfg])
    (by rw [error_rate_est cxA rfl rfl, avg_cxA]; norm_num [defaultCfg])
    (by rw [avg_cxA]
        exact heappush_ge_parent [(1, cxX)] (2, cxA) (1, cxX) rfl
          (by norm_num) (by norm_num))]

theorem put_cxB :
    poolPut defaultCfg ⟨[(1, cxX), (2, cxA)], []⟩ cxB =
      (⟨[(1, cxX), (2, cxA), (2, cxB)], []⟩, false) := by
  rw [poolPut_push_ok defaultCfg ⟨[(1, cxX), (2, cxA)], []⟩ cxB
    [(1, cxX), (2, cxA), (2, cxB)]
    (by norm_num [cxB, defaultCfg])
    (by rw [error_rate_est cxB rfl rfl, avg_cxB]; norm_num [defaultCfg])
    (by rw [avg_cxB]
        exact heappush_ge_parent [(1, cxX), (2, cxA)] (2, cxB) (1, cxX) rfl
          (by norm_num) (by norm_num))]

theorem put_cxC :
    poolPut defaultCfg ⟨[(1, cxX), (2, cxA), (2, cxB)], []⟩ cxC =
      (⟨[(1, cxX), (2, cxA), (2, cxB), (3, cxC)], []⟩, false) := by
  rw [poolPut_push_ok defaultCfg ⟨[(1, cxX), (2, cxA), (2, cxB)], []⟩ cxC
    [(1, cxX), (2, cxA), (2, cxB), (3, cxC)]
    (by norm_num [cxC, defaultCfg])
    (by rw [error_rate_est cxC rfl rfl, avg_cxC]; norm_num [defaultCfg])
    (by rw [avg_cxC]
        exact heappush_ge_parent [(1, cxX), (2, cxA), (2, cxB)] (3, cxC) (2, cxA) rfl
          (by norm_num) (by norm_num))]

theorem put_cxD :
    poolPut defaultCfg ⟨[(1, cxX), (2, cxA), (2, cxB), (3, cxC)], []⟩ cxD =
      (⟨[(1, cxX), (2, cxA), (2, cxB), (3, cxC), (4, cxD)], []⟩, false) := by
  rw [poolPut_push_ok defaultCfg ⟨[(1, cxX), (2, cxA), (2, cxB), (3, cxC)], []⟩ cxD
    [(1, cxX), (2, cxA), (2, cxB), (3, cxC), (4, cxD)]
    (by norm_num [cxD, defaultCfg])
    (by rw [error_rate_est cxD rfl rfl, avg_cxD]; norm_num [defaultCfg])
    (by rw [avg_cxD]
        exact heappush_ge_parent [(1, cxX), (2, cxA), (2, cxB), (3, cxC)] (4, cxD)
          (2, cxA) rfl (by norm_num) (by norm_num))]

/-- The heap scan of `get("HTTP")` on the 5-element pool crashes in its very
first pop (before any scheme check). -/
theorem bestScan_c2crash :
    bestScan "HTTP" [(1, cxX), (2, cxA), (2, cxB), (3, cxC), (4, cxD)] [] =
      .typeError [(4, cxD), (2, cxA), (2, cxB), (3, cxC)] := by
  rw [bestScan]
  split
  · rename_i heq
    rw [heappop_c2crash] at heq
    cases heq
  · rename_i h2x heq
    rw [heappop_c2crash] at heq
    cases heq
    rfl
  · rename_i e rest heq
    rw [heappop_c2crash] at heq
    cases heq

theorem get_c2crash :
    poolGet defaultCfg ⟨[(1, cxX), (2, cxA), (2, cxB), (3, cxC), (4, cxD)], []⟩
        "HTTP" [] =
      (⟨[(4, cxD), (2, cxA), (2, cxB), (3, cxC)], []⟩, .error .typeError) := by
  rw [poolGet_scan_crash defaultCfg _ "HTTP" [] [(4, cxD), (2, cxA), (2, cxB), (3, cxC)]
    (by norm_num [defaultCfg]) rfl bestScan_c2crash]

/-- Putting the two established proxies with distinct priorities. -/
def c2ops : List PoolOp := [PoolOp.put cxP1, PoolOp.put cxP2]

theorem runPoolE_c2ops :
    runPoolE defaultCfg c2ops = (⟨[(1, cxP1), (2, cxP2)], []⟩, false) := by
  unfold runPoolE c2ops
  rw [poolStep_cons defaultCfg _ _ _ _ _ _ (runPoolOpE_put _ _ _ _ _ put_cxP1)]
  rw [poolStep_cons defaultCfg _ _ _ _ _ _ (runPoolOpE_put _ _ _ _ _ put_cxP2)]
  rfl

/-- Five puts of increasing-avg proxies (with the tie cxA/cxB at depth), then
a get that crashes in the heap scan. -/
def c2crashOps : List PoolOp :=
  [PoolOp.put cxX, PoolOp.put cxA, PoolOp.put cxB, PoolOp.put cxC, PoolOp.put cxD,
   PoolOp.get "HTTP" []]

theorem runPoolE_c2crash :
    runPoolE defaultCfg c2crashOps =
      (⟨[(4, cxD), (2, cxA), (2, cxB), (3, cxC)], []⟩, true) := by
  unfold runPoolE c2crashOps
  rw [poolStep_cons defaultCfg _ _ _ _ _ _ (runPoolOpE_put _ _ _ _ _ put_cxX)]
  rw [poolStep_cons defaultCfg _ _ _ _ _ _ (runPoolOpE_put _ _ _ _ _ put_cxA)]
  rw [poolStep_cons defaultCfg _ _ _ _ _ _ (runPoolOpE_put _ _ _ _ _ put_cxB)]
  rw [poolStep_cons defaultCfg _ _ _ _ _ _ (runPoolOpE_put _ _ _ _ _ put_cxC)]
  rw [poolStep_cons defaultCfg _ _ _ _ _ _ (runPoolOpE_put _ _ _ _ _ put_cxD)]
  rw [poolStep_cons defaultCfg _ _ _ _ _ _ (runPoolOpE_get _ _ _ _ _ _ get_c2crash)]
  rfl

/-- C2 (counterexample): two faces of the failure of the claimed invariant.
After `put(cxP1)` then `put(cxP2)` the heap is `[(1, cxP1), (2, cxP2)]` —
ordered by the pushed key avg_resp_time — but the root's priority pair
(0.4, 1) is lexicographically greater than its child's (0, 2), so the claimed
min-heap property on (error_rate, avg_resp_time) fails on a crash-free run.
And after five puts with an avg_resp_time tie between the distinct proxies
cxA and cxB, `get("HTTP")` raises `TypeError` inside `heapq.heappop`, leaving
`[(4, cxD), (2, cxA), (2, cxB), (3, cxC)]` — whose root key 4 exceeds its
children's key 2, violating even the key-ordered min-heap property. -/
theorem c2_counterexample :
    runPoolE defaultCfg c2ops = (⟨[(1, cxP1), (2, cxP2)], []⟩, false)
    ∧ priority cxP1 = (2/5, 1)
    ∧ priority cxP2 = (0, 2)
    ∧ ¬ IsHeapPrio [(1, cxP1), (2, cxP2)]
    ∧ runPoolE defaultCfg c2crashOps =
        (⟨[(4, cxD), (2, cxA), (2, cxB), (3, cxC)], []⟩, true)
    ∧ ¬ IsHeap [(4, cxD), (2, cxA), (2, cxB), (3, cxC)] := by
  have hprio1 : priority cxP1 = (2/5, 1) := by
    unfold priority
    rw [error_rate_cxP1, avg_cxP1]
  have hprio2 : priority cxP2 = (0, 2) := by
    unfold priority
    rw [error_rate_cxP2, avg_cxP2]
  refine ⟨runPoolE_c2ops, hprio1, hprio2, ?_, runPoolE_c2crash, ?_⟩
  · intro hP
    have h01 := hP 0 1 (Or.inl rfl) (priority cxP1) (priority cxP2) rfl rfl
    rw [hprio1, hprio2] at h01
    rcases h01 with h | ⟨h, -⟩
    · norm_num at h
    · norm_num at h
  · intro hH
    have h01 := hH 0 1 (Or.inl rfl) 4 2 rfl rfl
    norm_num at h01

/-- C3 (amended): the admission rules of `ProxyPool.put`: below
`min_req_proxy` requests the proxy goes to the end of the newcomers FIFO;
at or above it with error_rate above `max_error_rate` or avg_resp_time above
`max_resp_time` it is discarded; otherwise `(avg_resp_time, proxy)` is pushed
onto the heap — and when the push succeeds the pool state is the push result,
while a push that raises `TypeError` (a key tie against a distinct proxy)
leaves the partially mutated heap and the exception escapes `put`. -/
theorem c3_put_rules (cfg : PoolCfg) (st : PoolSt) (p : ProxyM) :
    (p.requests < cfg.min_req_proxy →
      poolPut cfg st p = ({ st with newcomers := st.newcomers ++ [p] }, false))
    ∧ (cfg.min_req_proxy ≤ p.requests →
        (cfg.max_error_rate < error_rate p ∨ cfg.max_resp_time < avg_resp_time p) →
      poolPut cfg st p = (st, false))
    ∧ (∀ h2, cfg.min_req_proxy ≤ p.requests →
        ¬ (cfg.max_error_rate < error_rate p ∨ cfg.max_resp_time < avg_resp_time p) →
        heappush st.pool (avg_resp_time p, p) = .ok h2 →
      poolPut cfg st p = ({ st with pool := h2 }, false))
    ∧ (∀ h2, cfg.min_req_proxy ≤ p.requests →
        ¬ (cfg.max_error_rate < error_rate p ∨ cfg.max_resp_time < avg_resp_time p) →
        heappush st.pool (avg_resp_time p, p) = .typeError h2 →
      poolPut cfg st p = ({ st with pool := h2 }, true)) :=
  ⟨fun h => poolPut_newcomer cfg st p h,
   fun h1 h2 => poolPut_drop cfg st p h1 h2,
   fun h2 hge hok hp => poolPut_push_ok cfg st p h2 hge hok hp,
   fun h2 hge hok hp => poolPut_push_crash cfg st p h2 hge hok hp⟩

/-- Witness for C3 at concrete inputs: a fresh proxy (0 requests) is appended
to the newcomers; an established but slow proxy (avg 9 s > 8 s) is dropped;
an admissible established proxy is pushed; and the tie push raises, leaving
the duplicated heap. -/
theorem c3_put_rules_witness :
    poolPut defaultCfg emptyPool ⟨["HTTP"], 0, [], []⟩ =
      ({ emptyPool with newcomers := [⟨["HTTP"], 0, [], []⟩] }, false)
    ∧ poolPut defaultCfg emptyPool ⟨["HTTP"], 5, [], [9]⟩ = (emptyPool, false)
    ∧ poolPut defaultCfg emptyPool cxP1 = ({ emptyPool with pool := [(1, cxP1)] }, false)
    ∧ poolPut defaultCfg ⟨[(2, cxA), (3, cxC), (4, cxD)], []⟩ cxB =
        (⟨[(2, cxA), (3, cxC), (4, cxD), (3, cxC)], []⟩, true) := by
  refine ⟨(c3_put_rules defaultCfg emptyPool _).1 (by norm_num [defaultCfg]),
    ?_, ?_, ?_⟩
  · apply (c3_put_rules defaultCfg emptyPool _).2.1 (by norm_num [defaultCfg])
    right
    have h9 : avg_resp_time ⟨["HTTP"], 5, [], [9]⟩ = 9 := by
      unfold avg_resp_time
      rw [if_neg (by simp)]
      norm_num
      rw [round2_of_int _ 900 (by norm_num)]
      norm_num
    rw [h9]
    norm_num [defaultCfg]
  · have hstep := (c3_put_rules defaultCfg emptyPool cxP1).2.2.1
      [(avg_resp_time cxP1, cxP1)]
      (by norm_num [cxP1, defaultCfg])
      (by rw [error_rate_cxP1, avg_cxP1]; norm_num [defaultCfg])
      (heappush_nil _)
    rw [hstep, avg_cxP1]
  · exact (c3_put_rules defaultCfg ⟨[(2, cxA), (3, cxC), (4, cxD)], []⟩ cxB).2.2.2
      [(2, cxA), (3, cxC), (4, cxD), (3, cxC)]
      (by norm_num [cxB, defaultCfg])
      (by rw [error_rate_est cxB rfl rfl, avg_cxB]; norm_num [defaultCfg])
      (by rw [avg_cxB]
          exact heappush_c3crash)

theorem put_cxA0 : poolPut defaultCfg emptyPool cxA = (⟨[(2, cxA)], []⟩, false) := by
  rw [poolPut_push_ok defaultCfg emptyPool cxA [(avg_resp_time cxA, cxA)]
    (by norm_num [cxA, defaultCfg])
    (by rw [error_rate_est cxA rfl rfl, avg_cxA]; norm_num [defaultCfg])
    (heappush_nil _)]
  rw [avg_cxA]
  rfl

theorem put_cxC1 :
    poolPut defaultCfg ⟨[(2, cxA)], []⟩ cxC = (⟨[(2, cxA), (3, cxC)], []⟩, false) := by
  rw [poolPut_push_ok defaultCfg ⟨[(2, cxA)], []⟩ cxC [(2, cxA), (3, cxC)]
    (by norm_num [cxC, defaultCfg])
    (by rw [error_rate_est cxC rfl rfl, avg_cxC]; norm_num [defaultCfg])
    (by rw [avg_cxC]
        exact heappush_ge_parent [(2, cxA)] (3, cxC) (2, cxA) rfl
          (by norm_num) (by norm_num))]

theorem put_cxD2 :
    poolPut defaultCfg ⟨[(2, cxA), (3, cxC)], []⟩ cxD =
      (⟨[(2, cxA), (3, cxC), (4, cxD)], []⟩, false) := by
  rw [poolPut_push_ok defaultCfg ⟨[(2, cxA), (3, cxC)], []⟩ cxD
    [(2, cxA), (3, cxC), (4, cxD)]
    (by norm_num [cxD, defaultCfg])
    (by rw [error_rate_est cxD rfl rfl, avg_cxD]; norm_num [defaultCfg])
    (by rw [avg_cxD]
        exact heappush_ge_parent [(2, cxA), (3, cxC)] (4, cxD) (2, cxA) rfl
          (by norm_num) (by norm_num))]

theorem put_cxB3 :
    poolPut defaultCfg ⟨[(2, cxA), (3, cxC), (4, cxD)], []⟩ cxB =
      (⟨[(2, cxA), (3, cxC), (4, cxD), (3, cxC)], []⟩, true) := by
  rw [poolPut_push_crash defaultCfg ⟨[(2, cxA), (3, cxC), (4, cxD)], []⟩ cxB
    [(2, cxA), (3, cxC), (4, cxD), (3, cxC)]
    (by norm_num [cxB, defaultCfg])
    (by rw [error_rate_est cxB rfl rfl, avg_cxB]; norm_num [defaultCfg])
    (by rw [avg_cxB]
        exact heappush_c3crash)]

/-- Puts of cxA (avg 2), cxC (3), cxD (4), then of cxB whose avg 2 ties cxA. -/
def c3crashOps : List PoolOp :=
  [PoolOp.put cxA, PoolOp.put cxC, PoolOp.put cxD, PoolOp.put cxB]

theorem runPoolE_c3crash :
    runPoolE defaultCfg c3crashOps =
      (⟨[(2, cxA), (3, cxC), (4, cxD), (3, cxC)], []⟩, true) := by
  unfold runPoolE c3crashOps
  rw [poolStep_cons defaultCfg _ _ _ _ _ _ (runPoolOpE_put _ _ _ _ _ put_cxA0)]
  rw [poolStep_cons defaultCfg _ _ _ _ _ _ (runPoolOpE_put _ _ _ _ _ put_cxC1)]
  rw [poolStep_cons defaultCfg _ _ _ _ _ _ (runPoolOpE_put _ _ _ _ _ put_cxD2)]
  rw [poolStep_cons defaultCfg _ _ _ _ _ _ (runPoolOpE_put _ _ _ _ _ put_cxB3)]
  rfl

/-- C3 (counterexample): the put of an admissible established proxy whose
avg_resp_time ties an entry already in the heap (cxB vs cxA, both avg 2,
distinct objects) raises `TypeError` inside `heapq.heappush` mid-sift: the
heap is left `[(2, cxA), (3, cxC), (4, cxD), (3, cxC)]` with `(3, cxC)`
duplicated, and the pushed proxy cxB is in neither container — it is lost,
not cleanly admitted or discarded as the claim describes. -/
theorem c3_counterexample :
    runPoolE defaultCfg c3crashOps =
      (⟨[(2, cxA), (3, cxC), (4, cxD), (3, cxC)], []⟩, true)
    ∧ avg_resp_time cxB = avg_resp_time cxA
    ∧ cxB ≠ cxA
    ∧ ∀ e ∈ [(2, cxA), (3, cxC), (4, cxD), (3, cxC)], e.2 ≠ cxB := by
  refine ⟨runPoolE_c3crash, ?_, by decide, by decide⟩
  rw [avg_cxB, avg_cxA]

/-! ### Claim C7: the Proxy constructor's port validation (proxy.py) -/

/-- Split a character list on `.` separators. -/
def splitDots : List Char → List (List Char)
  | [] => [[]]
  | c :: rest =>
    if c = '.' then [] :: splitDots rest
    else
      match splitDots rest with
      | [] => [[c]]
      | part :: parts => (c :: part) :: parts

def digitVal (c : Char) : Nat := c.toNat - 48

/-- One dotted-quad component: non-empty, at most 3 decimal digits, value at
most 255, no leading zero (Python `ipaddress` rejects them). -/
def ipv4PartOk (p : List Char) : Bool :=
  (decide (p ≠ [])) && (decide (p.length ≤ 3)) && p.all Char.isDigit &&
  (decide ((p.foldl (fun acc c => 10 * acc + digitVal c) 0) ≤ 255)) &&
  (decide (p.length ≤ 1) || decide (p.headD ' ' ≠ '0'))

/-- Modelled from the spec: `Resolver.host_is_ip` (resolver.py is not under
src/); spec §6 specifies `host_is_ip(s) → bool`, true exactly for literal IP
addresses.  The IPv4 dotted-quad form is modelled, which covers every host the
claims mention. -/
def host_is_ip (s : String) : Bool :=
  let parts := splitDots s.toList
  (decide (parts.length = 4)) && parts.all ipv4PartOk

inductive InitErr where
  | notIp
  | portNone
  | portTooBig
deriving DecidableEq

/-- `Proxy.__init__(host, port)`: reject a non-IP host, a `None` port, and a
port greater than 65535.  The source has no lower bound check on the port. -/
def proxyInit (host : String) (port : Option Int) : Except InitErr Int :=
  if host_is_ip host = false then .error .notIp
  else
    match port with
    | none => .error .portNone
    | some p => if 65535 < p then .error .portTooBig else .ok p

/-- C7 (counterexample): `Proxy('127.0.0.1', 0)` succeeds — the constructor
does not reject port 0 (nor negatives: `Proxy('127.0.0.1', -1)` also
succeeds), contradicting the claimed `1 <= p` lower bound. -/
theorem c7_counterexample :
    proxyInit "127.0.0.1" (some 0) = Except.ok 0
    ∧ proxyInit "127.0.0.1" (some (-1)) = Except.ok (-1)
    ∧ ¬ (1 ≤ (0 : Int)) := by
  exact ⟨rfl, rfl, by norm_num⟩

/-- C7 (amended): the constructor accepts port 65535 and rejects 65536 with
`ValueError`; but there is no lower bound: for every integer p,
`Proxy('127.0.0.1', p)` succeeds iff `p ≤ 65535` (port 0 and negative ports
are accepted), and a `None` port is rejected. -/
theorem c7_port_validation (p : Int) :
    ((proxyInit "127.0.0.1" (some p)).isOk = true ↔ p ≤ 65535)
    ∧ (proxyInit "127.0.0.1" none).isOk = false := by
  have hip : host_is_ip "127.0.0.1" = true := by decide
  constructor
  · unfold proxyInit
    rw [hip]
    simp only [Bool.true_eq_false, if_false]
    by_cases hp : 65535 < p
    · rw [if_pos hp]
      simp [Except.isOk, Except.toBool]
      omega
    · rw [if_neg hp]
      simp [Except.isOk, Except.toBool]
      omega
  · unfold proxyInit
    rw [hip]
    simp [Except.isOk, Except.toBool]

/-- Witness for C7's amended theorem at the boundary ports. -/
theorem c7_port_validation_witness :
    (proxyInit "127.0.0.1" (some 65535)).isOk = true
    ∧ (proxyInit "127.0.0.1" (some 65536)).isOk = false := by
  constructor
  · exact (c7_port_validation 65535).1.mpr (by norm_num)
  · have h := (c7_port_validation 65536).1
    by_cases hc : (proxyInit "127.0.0.1" (some 65536)).isOk = true
    · exact absurd (h.mp hc) (by norm_num)
    · simpa using hc

/-! ### Claim C4: the behaviour of ProxyPool._import -/

/-- Queue position `j` holds a scheme-incompatible proxy. -/
def incompatAt (scheme : String) (queue : List (Option ProxyM)) (j : Nat) : Prop :=
  ∃ q, queue[j]? = some (some q) ∧ scheme ∉ q.schemes

/-- The first `k` queue positions all hold scheme-incompatible proxies. -/
def incompatRun (scheme : String) (queue : List (Option ProxyM)) (k : Nat) : Prop :=
  ∀ j, j < k → incompatAt scheme queue j

/-- The scheme-incompatible proxies `_import` pulls (and re-`put`s) before it
stops, given the remaining retry budget. -/
def pulledIncompat (scheme : String) : List (Option ProxyM) → Nat → List ProxyM
  | _, 0 => []
  | [], _ + 1 => []
  | none :: _, _ + 1 => []
  | some p :: rest, fuel + 1 =>
    if scheme ∈ p.schemes then [] else p :: pulledIncompat scheme rest fuel

theorem incompatRun_cons (scheme : String) (p : ProxyM) (rest : List (Option ProxyM))
    (k : Nat) :
    incompatRun scheme (some p :: rest) (k + 1) ↔
      scheme ∉ p.schemes ∧ incompatRun scheme rest k := by
  constructor
  · intro h
    constructor
    · rcases h 0 (by omega) with ⟨q, hq, hnq⟩
      simp only [List.getElem?_cons_zero, Option.some_inj] at hq
      cases hq
      exact hnq
    · intro j hj
      rcases h (j + 1) (by omega) with ⟨q, hq, hnq⟩
      exact ⟨q, by simpa using hq, hnq⟩
  · rintro ⟨hp, h⟩ j hj
    match j with
    | 0 => exact ⟨p, by simp, hp⟩
    | j' + 1 =>
      rcases h j' (by omega) with ⟨q, hq, hnq⟩
      exact ⟨q, by simpa using hq, hnq⟩

theorem not_incompatAt_zero_compat (scheme : String) (p : ProxyM)
    (rest : List (Option ProxyM)) (hs : scheme ∈ p.schemes) :
    ¬ incompatAt scheme (some p :: rest) 0 := by
  rintro ⟨q, hq, hnq⟩
  simp only [List.getElem?_cons_zero, Option.some_inj] at hq
  cases hq
  exact hnq hs

theorem not_incompatAt_zero_null (scheme : String) (rest : List (Option ProxyM)) :
    ¬ incompatAt scheme (none :: rest) 0 := by
  rintro ⟨q, hq, -⟩
  simp at hq

/-- The pool state after a crash-free `_import`: every pulled incompatible
proxy has been re-`put`, in pull order. -/
theorem importLoop_state (cfg : PoolCfg) (scheme : String) :
    ∀ (fuel : Nat) (queue : List (Option ProxyM)) (st : PoolSt),
      crashed (importLoop cfg scheme st queue fuel).2 = false →
      (importLoop cfg scheme st queue fuel).1 =
        (pulledIncompat scheme queue fuel).foldl
          (fun s p => (poolPut cfg s p).1) st := by
  intro fuel
  induction fuel with
  | zero =>
    intro queue st hnc
    simp only [importLoop, pulledIncompat, List.foldl_nil]
  | succ n ih =>
    intro queue st hnc
    match queue with
    | [] => simp only [importLoop, pulledIncompat, List.foldl_nil]
    | none :: rest => simp only [importLoop, pulledIncompat, List.foldl_nil]
    | some p :: rest =>
      by_cases hs : scheme ∈ p.schemes
      · rw [importLoop_step_found cfg scheme st p rest n hs]
        simp only [pulledIncompat, if_pos hs, List.foldl_nil]
      · rcases hput : poolPut cfg st p with ⟨st2, c⟩
        cases c with
        | true =>
          rw [importLoop_step_crash cfg scheme st p rest n st2 hs hput] at hnc
          cases hnc
        | false =>
          rw [importLoop_step_ok cfg scheme st p rest n st2 hs hput] at hnc ⊢
          simp only [pulledIncompat, if_neg hs, List.foldl_cons, hput]
          exact ih rest st2 hnc

/-- A proxy returned by `_import` supports the requested scheme. -/
theorem importLoop_ok_schemes (cfg : PoolCfg) (scheme : String) :
    ∀ (fuel : Nat) (queue : List (Option ProxyM)) (st : PoolSt) (p : ProxyM),
      (importLoop cfg scheme st queue fuel).2 = .ok p → scheme ∈ p.schemes := by
  intro fuel
  induction fuel with
  | zero =>
    intro queue st p h
    simp only [importLoop] at h
    cases h
  | succ n ih =>
    intro queue st p h
    match queue with
    | [] =>
      simp only [importLoop] at h
      cases h
    | none :: rest =>
      simp only [importLoop] at h
      cases h
    | some q :: rest =>
      by_cases hs : scheme ∈ q.schemes
      · rw [importLoop_step_found cfg scheme st q rest n hs] at h
        cases h
        exact hs
      · rcases hput : poolPut cfg st q with ⟨st2, c⟩
        cases c with
        | true =>
          rw [importLoop_step_crash cfg scheme st q rest n st2 hs hput] at h
          cases h
        | false =>
          rw [importLoop_step_ok cfg scheme st q rest n st2 hs hput] at h
          exact ih rest st2 p h

/-- A crash-free `_import` exhausts the retry budget exactly when the first
`max_import_retries` arrivals are all scheme-incompatible proxies. -/
theorem importLoop_maxRetries_iff (cfg : PoolCfg) (scheme : String) :
    ∀ (fuel : Nat) (queue : List (Option ProxyM)) (st : PoolSt),
      crashed (importLoop cfg scheme st queue fuel).2 = false →
      ((importLoop cfg scheme st queue fuel).2 = .error (.noProxy .maxRetries) ↔
        incompatRun scheme queue fuel) := by
  intro fuel
  induction fuel with
  | zero =>
    intro queue st hnc
    simp only [importLoop]
    constructor
    · intro _ j hj
      exact absurd hj (by omega)
    · intro _
      trivial
  | succ n ih =>
    intro queue st hnc
    match queue with
    | [] =>
      simp only [importLoop]
      constructor
      · intro h
        simp at h
      · intro hrun
        exfalso
        rcases hrun 0 (by omega) with ⟨q, hq, -⟩
        simp at hq
    | none :: rest =>
      simp only [importLoop]
      constructor
      · intro h
        simp at h
      · intro hrun
        exact absurd (hrun 0 (by omega)) (not_incompatAt_zero_null scheme rest)
    | some p :: rest =>
      by_cases hs : scheme ∈ p.schemes
      · rw [importLoop_step_found cfg scheme st p rest n hs]
        constructor
        · intro h
          simp at h
        · intro hrun
          exact absurd (hrun 0 (by omega)) (not_incompatAt_zero_compat scheme p rest hs)
      · rcases hput : poolPut cfg st p with ⟨st2, c⟩
        cases c with
        | true =>
          rw [importLoop_step_crash cfg scheme st p rest n st2 hs hput] at hnc
          cases hnc
        | false =>
          rw [importLoop_step_ok cfg scheme st p rest n st2 hs hput] at hnc ⊢
          rw [ih rest st2 hnc, incompatRun_cons]
          constructor
          · intro h
            exact ⟨hs, h⟩
          · intro h
            exact h.2

/-- A crash-free `_import` hits the import timeout exactly when the queue
ends — all its entries being incompatible proxies — before the retry budget
runs out. -/
theorem importLoop_timeout_iff (cfg : PoolCfg) (scheme : String) :
    ∀ (fuel : Nat) (queue : List (Option ProxyM)) (st : PoolSt),
      crashed (importLoop cfg scheme st queue fuel).2 = false →
      ((importLoop cfg scheme st queue fuel).2 = .error (.noProxy .timeout) ↔
        queue.length < fuel ∧ incompatRun scheme queue queue.length) := by
  intro fuel
  induction fuel with
  | zero =>
    intro queue st hnc
    simp only [importLoop]
    constructor
    · intro h
      simp at h
    · rintro ⟨h, -⟩
      exact absurd h (by omega)
  | succ n ih =>
    intro queue st hnc
    match queue with
    | [] =>
      simp only [importLoop, List.length_nil]
      constructor
      · intro _
        exact ⟨by omega, fun j hj => absurd hj (by omega)⟩
      · intro _
        trivial
    | none :: rest =>
      simp only [importLoop]
      constructor
      · intro h
        simp at h
      · rintro ⟨-, hrun⟩
        exact absurd (hrun 0 (by simp)) (not_incompatAt_zero_null scheme rest)
    | some p :: rest =>
      by_cases hs : scheme ∈ p.schemes
      · rw [importLoop_step_found cfg scheme st p rest n hs]
        constructor
        · intro h
          simp at h
        · rintro ⟨-, hrun⟩
          exact absurd (hrun 0 (by simp)) (not_incompatAt_zero_compat scheme p rest hs)
      · rcases hput : poolPut cfg st p with ⟨st2, c⟩
        cases c with
        | true =>
          rw [importLoop_step_crash cfg scheme st p rest n st2 hs hput] at hnc
          cases hnc
        | false =>
          rw [importLoop_step_ok cfg scheme st p rest n st2 hs hput] at hnc ⊢
          rw [ih rest st2 hnc]
          simp only [List.length_cons]
          rw [incompatRun_cons]
          constructor
          · rintro ⟨h1, h2⟩
            exact ⟨by omega, hs, h2⟩
          · rintro ⟨h1, -, h2⟩
            exact ⟨by omega, h2⟩

/-- A crash-free `_import` raises on the null sentinel exactly when a
sentinel arrives after only incompatible proxies, within the retry budget. -/
theorem importLoop_null_iff (cfg : PoolCfg) (scheme : String) :
    ∀ (fuel : Nat) (queue : List (Option ProxyM)) (st : PoolSt),
      crashed (importLoop cfg scheme st queue fuel).2 = false →
      ((importLoop cfg scheme st queue fuel).2 = .error (.noProxy .nullSentinel) ↔
        ∃ i, i < fuel ∧ incompatRun scheme queue i ∧ queue[i]? = some none) := by
  intro fuel
  induction fuel with
  | zero =>
    intro queue st hnc
    simp only [importLoop]
    constructor
    · intro h
      simp at h
    · rintro ⟨i, hi, -, -⟩
      exact absurd hi (by omega)
  | succ n ih =>
    intro queue st hnc
    match queue with
    | [] =>
      simp only [importLoop]
      constructor
      · intro h
        simp at h
      · rintro ⟨i, -, -, hq⟩
        simp at hq
    | none :: rest =>
      simp only [importLoop]
      constructor
      · intro _
        exact ⟨0, by omega, fun j hj => absurd hj (by omega), by simp⟩
      · intro _
        trivial
    | some p :: rest =>
      by_cases hs : scheme ∈ p.schemes
      · rw [importLoop_step_found cfg scheme st p rest n hs]
        constructor
        · intro h
          simp at h
        · rintro ⟨i, hi, hrun, hq⟩
          match i with
          | 0 => simp at hq
          | i' + 1 =>
            exact absurd (hrun 0 (by omega)) (not_incompatAt_zero_compat scheme p rest hs)
      · rcases hput : poolPut cfg st p with ⟨st2, c⟩
        cases c with
        | true =>
          rw [importLoop_step_crash cfg scheme st p rest n st2 hs hput] at hnc
          cases hnc
        | false =>
          rw [importLoop_step_ok cfg scheme st p rest n st2 hs hput] at hnc ⊢
          rw [ih rest st2 hnc]
          constructor
          · rintro ⟨i, hi, hrun, hq⟩
            refine ⟨i + 1, by omega, ?_, by simpa using hq⟩
            rw [incompatRun_cons]
            exact ⟨hs, hrun⟩
          · rintro ⟨i, hi, hrun, hq⟩
            match i with
            | 0 => simp at hq
            | i' + 1 =>
              rw [incompatRun_cons] at hrun
              exact ⟨i', by omega, hrun.2, by simpa using hq⟩

/-- C4 (amended): provided no re-`put` raises `TypeError`, `_import` raises a
no-proxy error exactly when the retry budget is exhausted by
scheme-incompatible arrivals, or no further proxy arrives within the import
timeout, or a null sentinel is pulled; the sentinel raises immediately
(before any state change); every pulled scheme-incompatible proxy is re-`put`
into the pool; and a returned proxy supports the scheme.  (A re-`put` that
raises `TypeError` — a key tie in the heap — aborts `_import` with that
exception instead of a no-proxy error, dropping the pulled proxy.) -/
theorem c4_import_behaviour (cfg : PoolCfg) (st : PoolSt) (scheme : String)
    (queue : List (Option ProxyM))
    (hnc : crashed (importLoop cfg scheme st queue cfg.max_import_retries).2 = false) :
    ((importLoop cfg scheme st queue cfg.max_import_retries).1 =
        (pulledIncompat scheme queue cfg.max_import_retries).foldl
          (fun s p => (poolPut cfg s p).1) st)
    ∧ ((importLoop cfg scheme st queue cfg.max_import_retries).2.isOk = false ↔
        incompatRun scheme queue cfg.max_import_retries
        ∨ (queue.length < cfg.max_import_retries ∧
            incompatRun scheme queue queue.length)
        ∨ (∃ i, i < cfg.max_import_retries ∧ incompatRun scheme queue i ∧
            queue[i]? = some none))
    ∧ ((importLoop cfg scheme st queue cfg.max_import_retries).2 =
          .error (.noProxy .maxRetries) ↔
        incompatRun scheme queue cfg.max_import_retries)
    ∧ (0 < cfg.max_import_retries → queue[0]? = some none →
        importLoop cfg scheme st queue cfg.max_import_retries =
          (st, .error (.noProxy .nullSentinel)))
    ∧ (∀ p, (importLoop cfg scheme st queue cfg.max_import_retries).2 = .ok p →
        scheme ∈ p.schemes) := by
  refine ⟨importLoop_state cfg scheme _ queue st hnc, ?_,
    importLoop_maxRetries_iff cfg scheme _ queue st hnc, ?_,
    fun p => importLoop_ok_schemes cfg scheme _ queue st p⟩
  · constructor
    · intro h
      rcases hres : (importLoop cfg scheme st queue cfg.max_import_retries).2 with e | p
      · cases e with
        | noProxy ie =>
          cases ie
          · right
            left
            exact (importLoop_timeout_iff cfg scheme _ queue st hnc).mp hres
          · right
            right
            exact (importLoop_null_iff cfg scheme _ queue st hnc).mp hres
          · left
            exact (importLoop_maxRetries_iff cfg scheme _ queue st hnc).mp hres
        | typeError =>
          rw [hres] at hnc
          cases hnc
      · rw [hres] at h
        simp [Except.isOk, Except.toBool] at h
    · intro h
      rcases h with h | h | h
      · rw [(importLoop_maxRetries_iff cfg scheme _ queue st hnc).mpr h]
        rfl
      · rw [(importLoop_timeout_iff cfg scheme _ queue st hnc).mpr h]
        rfl
      · rw [(importLoop_null_iff cfg scheme _ queue st hnc).mpr h]
        rfl
  · intro hR h0
    match hq : queue, cfg.max_import_retries, hR with
    | none :: rest, n + 1, _ => rfl
    | [], _ + 1, _ => simp at h0
    | some p :: rest, _ + 1, _ => simp at h0

/-- Witness for C4: one incompatible proxy (HTTPS-only) is pulled and
re-queued as a newcomer, then the compatible one is returned. -/
theorem c4_import_behaviour_witness :
    (importLoop defaultCfg "HTTP" emptyPool
        [some ⟨["HTTPS"], 0, [], []⟩, some ⟨["HTTP"], 0, [], []⟩]
        defaultCfg.max_import_retries).1 =
      { emptyPool with newcomers := [⟨["HTTPS"], 0, [], []⟩] }
    ∧ "HTTP" ∈ ProxyM.schemes ⟨["HTTP"], 0, [], []⟩ := by
  constructor
  · rw [(c4_import_behaviour defaultCfg emptyPool "HTTP"
      [some ⟨["HTTPS"], 0, [], []⟩, some ⟨["HTTP"], 0, [], []⟩] rfl).1]
    rfl
  · exact (c4_import_behaviour defaultCfg emptyPool "HTTP"
      [some ⟨["HTTPS"], 0, [], []⟩, some ⟨["HTTP"], 0, [], []⟩] rfl).2.2.2.2
      ⟨["HTTP"], 0, [], []⟩ rfl

/-- The re-`put` of the pulled incompatible cxB crashes against the tied
in-pool entry (2, cxA), so `_import` ends in `TypeError`. -/
theorem c4_import_crash :
    importLoop defaultCfg "HTTP" ⟨[(2, cxA), (3, cxC), (4, cxD)], []⟩ [some cxB]
        defaultCfg.max_import_retries =
      (⟨[(2, cxA), (3, cxC), (4, cxD), (3, cxC)], []⟩, .error .typeError) := by
  show importLoop defaultCfg "HTTP" ⟨[(2, cxA), (3, cxC), (4, cxD)], []⟩ [some cxB]
      (99 + 1) = _
  exact importLoop_step_crash defaultCfg "HTTP" _ cxB [] 99 _ (by decide) put_cxB3

/-- Puts building the pool `[(2, cxA), (3, cxC), (4, cxD)]`. -/
def c4startOps : List PoolOp := [PoolOp.put cxA, PoolOp.put cxC, PoolOp.put cxD]

theorem runPoolE_c4start :
    runPoolE defaultCfg c4startOps = (⟨[(2, cxA), (3, cxC), (4, cxD)], []⟩, false) := by
  unfold runPoolE c4startOps
  rw [poolStep_cons defaultCfg _ _ _ _ _ _ (runPoolOpE_put _ _ _ _ _ put_cxA0)]
  rw [poolStep_cons defaultCfg _ _ _ _ _ _ (runPoolOpE_put _ _ _ _ _ put_cxC1)]
  rw [poolStep_cons defaultCfg _ _ _ _ _ _ (runPoolOpE_put _ _ _ _ _ put_cxD2)]
  rfl

/-- C4 (counterexample): with the reachable pool `[(2, cxA), (3, cxC),
(4, cxD)]` (three crash-free puts) and a queue delivering only the
HTTP-incompatible cxB (avg 2, tying cxA), `get("HTTP")` goes to `_import`,
whose re-`put` of cxB raises `TypeError`: the call ends in `TypeError`
rather than any characterized no-proxy error, and the pulled proxy cxB is in
neither container — dropped, not re-`put`. -/
theorem c4_counterexample :
    runPoolE defaultCfg c4startOps = (⟨[(2, cxA), (3, cxC), (4, cxD)], []⟩, false)
    ∧ poolGet defaultCfg ⟨[(2, cxA), (3, cxC), (4, cxD)], []⟩ "HTTP" [some cxB] =
        (⟨[(2, cxA), (3, cxC), (4, cxD), (3, cxC)], []⟩, .error .typeError)
    ∧ "HTTP" ∉ cxB.schemes
    ∧ ∀ e ∈ [(2, cxA), (3, cxC), (4, cxD), (3, cxC)], e.2 ≠ cxB := by
  refine ⟨runPoolE_c4start, ?_, by decide, by decide⟩
  rw [poolGet_import defaultCfg _ "HTTP" [some cxB] (by norm_num [defaultCfg])]
  exact c4_import_crash

/-! ### Claim C1: scheme compatibility of ProxyPool.get -/

/-- C1 (amended): a proxy returned by `ProxyPool.get` through the import path
(pool below `min_queue`) or the best-strategy heap scan supports the requested
scheme; but a proxy popped from the newcomers FIFO front is returned without
any scheme check, so the guarantee does not hold on the newcomer path. -/
theorem c1_scheme_compat (cfg : PoolCfg) (st : PoolSt) (scheme : String)
    (queue : List (Option ProxyM)) (st2 : PoolSt) (p : ProxyM)
    (hbranch : st.pool.length + st.newcomers.length < cfg.min_queue ∨
      st.newcomers = [])
    (hres : poolGet cfg st scheme queue = (st2, .ok p)) :
    scheme ∈ p.schemes := by
  by_cases hq : st.pool.length + st.newcomers.length < cfg.min_queue
  · rw [poolGet_import cfg st scheme queue hq] at hres
    exact importLoop_ok_schemes cfg scheme _ queue st p (by rw [hres])
  · rcases hbranch with hb | hb
    · exact absurd hb hq
    · rcases hbs : bestScan scheme st.pool [] with ⟨p2, pool2⟩ | pool2 | pool2
      · rw [poolGet_scan_found cfg st scheme queue p2 pool2 hq hb hbs] at hres
        have hsnd := congrArg Prod.snd hres
        have hp2 : Except.ok (ε := GetErr) p2 = Except.ok p := hsnd
        injection hp2 with hp2e
        rw [← hp2e]
        exact bestScan_found_schemes scheme st.pool [] p2 pool2 hbs
      · rw [poolGet_scan_notFound cfg st scheme queue pool2 hq hb hbs] at hres
        exact importLoop_ok_schemes cfg scheme _ queue _ p (by rw [hres])
      · rw [poolGet_scan_crash cfg st scheme queue pool2 hq hb hbs] at hres
        have hsnd := congrArg Prod.snd hres
        exact Except.noConfusion hsnd

/-- C1 (counterexample): after five `put`s of fresh HTTP-only proxies, the
pool holds five newcomers, so `get("HTTPS")` takes the newcomer branch and
returns the FIFO front without a scheme check — a proxy whose schemes do not
include HTTPS.  The claimed re-admit-and-continue behaviour does not exist in
the code (server.py:63-64). -/
theorem c1_counterexample :
    (poolGet defaultCfg
        (runPoolE defaultCfg (List.replicate 5 (PoolOp.put cxNewA))).1 "HTTPS" []).2 =
      Except.ok cxNewA
    ∧ "HTTPS" ∉ cxNewA.schemes := by
  constructor
  · rfl
  · decide

/-- Witness for C1's amended theorem: the import path returns a compatible
proxy. -/
theorem c1_scheme_compat_witness : "HTTP" ∈ cxNewA.schemes :=
  c1_scheme_compat defaultCfg emptyPool "HTTP" [some cxNewA] emptyPool cxNewA
    (Or.inl (by decide)) rfl

end ProxyBroker
